import Mathlib

/-!
# selectZIP: the region editor of `scripts.js`

A shallow embedding of the state and the event handlers of `scripts.js`.

* A JavaScript `Set` of strings is the list of its elements in insertion order.
* A JavaScript `Map` with string keys is the list of its entries in insertion order.
* The module-level variables `selectedPlz`, `regions`, `regionColors` and `featureIndex`
  are the fields of `State`; every handler is a function on `State`.
* DOM updates (`refreshLegend`, the option list, the counters) do not feed back into the
  four variables and are left out; the calls that do change them (`getRegionColor` inside
  `refreshRegionList` and `styleFor`) are kept.
-/

namespace SelectZIP

/-! ## JavaScript `Set` and `Map`, in insertion order -/

/-- JavaScript `set.has(p)`. -/
def setHas (s : List String) (p : String) : Bool := s.contains p

/-- JavaScript `set.add(p)`: a new element goes to the end, a present one stays where it is. -/
def setAdd (s : List String) (p : String) : List String :=
  if setHas s p then s else s ++ [p]

/-- JavaScript `set.delete(p)`. -/
def setDelete (s : List String) (p : String) : List String :=
  s.filter (fun q => q != p)

/-- JavaScript `new Set(arr)`: the elements of `arr` are added one by one. -/
def setFromArray (arr : List String) : List String :=
  arr.foldl setAdd []

/-- JavaScript `map.has(k)`. -/
def mapHas {β : Type} (m : List (String × β)) (k : String) : Bool :=
  m.any (fun e => e.1 == k)

/-- JavaScript `map.get(k)`; `none` is JavaScript's `undefined`. -/
def mapGet {β : Type} (m : List (String × β)) (k : String) : Option β :=
  (m.find? (fun e => e.1 == k)).map (fun e => e.2)

/-- JavaScript `map.set(k, v)`: an existing key keeps its position, a new one goes to the end. -/
def mapSet {β : Type} (m : List (String × β)) (k : String) (v : β) : List (String × β) :=
  if mapHas m k then m.map (fun e => if e.1 == k then (e.1, v) else e) else m ++ [(k, v)]

/-- JavaScript `map.delete(k)`. -/
def mapDelete {β : Type} (m : List (String × β)) (k : String) : List (String × β) :=
  m.filter (fun e => e.1 != k)

/-- JavaScript `map.keys()`. -/
def mapKeys {β : Type} (m : List (String × β)) : List String := m.map (fun e => e.1)

/-- JavaScript `map.values()`. -/
def mapValues {β : Type} (m : List (String × β)) : List β := m.map (fun e => e.2)

/-! ## Program state -/

/-- One entry of `featureIndex`: `{ plz, feature, layer }`. The GeoJSON feature is kept as
an identifier; the layer is always the Leaflet layer made by `L.geoJSON`, hence truthy. -/
structure FeatureRec where
  plz : String
  feature : Nat
  deriving DecidableEq, Repr

/-- The module-level variables of `scripts.js`. -/
structure State where
  selectedPlz : List String
  regions : List (String × List String)
  regionColors : List (String × String)
  featureIndex : List FeatureRec
  deriving DecidableEq, Repr

/-- The state when the script has just been loaded. -/
def initialState : State :=
  { selectedPlz := [], regions := [], regionColors := [], featureIndex := [] }

/-- Source `palette`. -/
def palette : List String :=
  ["#ef4444", "#10b981", "#3b82f6", "#f59e0b", "#8b5cf6", "#14b8a6", "#6366f1"]

/-- The literal `'#111827'` of `getRegionColor`. -/
def fallbackColor : String := "#111827"

/-- A Leaflet path style; `fillColor := none` when the property is not set. -/
structure Style where
  color : String
  weight : ℚ
  fillColor : Option String
  fillOpacity : ℚ
  deriving DecidableEq

/-- Source `defaultStyle`. -/
def defaultStyle : Style :=
  { color := "#3b82f6", weight := 1, fillColor := none, fillOpacity := 0.1 }

/-- Source `selectedStyle`. -/
def selectedStyle : Style :=
  { color := "#1d4ed8", weight := 2, fillColor := none, fillOpacity := 0.25 }

/-! ## Colour assignment and styling -/

/-- Source `getRegionColor(name)`: the returned value and the new `regionColors`. -/
def getRegionColor (regionColors : List (String × String)) (name : String) :
    Option String × List (String × String) :=
  if !mapHas regionColors name then
    let used := mapValues regionColors
    let next := (palette.find? (fun c => !used.contains c)).getD fallbackColor
    let regionColors1 := mapSet regionColors name next
    (mapGet regionColors1 name, regionColors1)
  else
    (mapGet regionColors name, regionColors)

/-- The loop of `styleFor` over `regions.entries()`: the member style of the first region
whose set has `plz`, with the colour map after `getRegionColor`; `none` if the loop ends. -/
def styleForLoop (plz : String) (regionColors : List (String × String)) :
    List (String × List String) → Option (Style × List (String × String))
  | [] => none
  | (region, set) :: rest =>
    if setHas set plz then
      let r := getRegionColor regionColors region
      some ({ color := "#1f2937", weight := 1.5, fillColor := r.1, fillOpacity := 0.35 }, r.2)
    else styleForLoop plz regionColors rest

/-- Source `styleFor(plz)`: the style and the state afterwards. -/
def styleFor (s : State) (plz : String) : Style × State :=
  match styleForLoop plz s.regionColors s.regions with
  | some (st, rc) => (st, { s with regionColors := rc })
  | none => (if setHas s.selectedPlz plz then selectedStyle else defaultStyle, s)

/-- Source `restyle(plz)`: `styleFor` runs only when a record with that code is found. -/
def restyle (s : State) (plz : String) : State :=
  match s.featureIndex.find? (fun f => f.plz == plz) with
  | some _ => (styleFor s plz).2
  | none => s

/-- Source `restyleAll()`. -/
def restyleAll (s : State) : State :=
  s.featureIndex.foldl (fun st f => restyle st f.plz) s

/-- Source `refreshRegionList()`: `getRegionColor(name)` is called for every region in turn. -/
def refreshRegionList (s : State) : State :=
  { s with regionColors := s.regions.foldl (fun rc e => (getRegionColor rc e.1).2) s.regionColors }

/-- Source `refreshRegionSelect()`. -/
def refreshRegionSelect (s : State) : State := refreshRegionList s

/-! ## Click selection -/

/-- The body run by the click handler for the record `rec` that was hit: toggle the code in
`selectedPlz`, then `restyle(rec.plz)`. -/
def toggleSelected (s : State) (rec : FeatureRec) : State :=
  let s1 : State :=
    if setHas s.selectedPlz rec.plz then { s with selectedPlz := setDelete s.selectedPlz rec.plz }
    else { s with selectedPlz := setAdd s.selectedPlz rec.plz }
  restyle s1 rec.plz

/-- The loop of the click handler over `featureIndex`; `inside f` is
`turf.booleanPointInPolygon(pt, f)` for the clicked point. It stops at the first hit. -/
def clickLoop (inside : Nat → Bool) (s : State) : List FeatureRec → State
  | [] => s
  | rec :: rest => if inside rec.feature then toggleSelected s rec else clickLoop inside s rest

/-- The `map.on('click', ...)` handler installed by `loadGeojson`. -/
def onMapClick (inside : Nat → Bool) (s : State) : State :=
  clickLoop inside s s.featureIndex

/-! ## Region handlers -/

/-- The characters removed by `String.prototype.trim`: ECMAScript WhiteSpace and
LineTerminator. -/
def isJsWhiteSpace (c : Char) : Bool :=
  let n := c.toNat
  n == 0x09 || n == 0x0A || n == 0x0B || n == 0x0C || n == 0x0D || n == 0x20 || n == 0xA0 ||
  n == 0x1680 || (0x2000 ≤ n && n ≤ 0x200A) || n == 0x2028 || n == 0x2029 || n == 0x202F ||
  n == 0x205F || n == 0x3000 || n == 0xFEFF

/-- JavaScript `str.trim()`. -/
def jsTrim (str : String) : String :=
  String.mk ((str.data.dropWhile isJsWhiteSpace).reverse.dropWhile isJsWhiteSpace).reverse

/-- Source `btnCreateRegion.onclick`; `input` is the value of the `regionName` field. The second
component is the `alert` message, if any. -/
def btnCreateRegion (input : String) (s : State) : State × Option String :=
  let name := jsTrim input
  if name == "" then (s, some "Bitte Regionsnamen eingeben")
  else if mapHas s.regions name then (s, some "Region existiert bereits")
  else
    let regions1 := mapSet s.regions name []
    let r := getRegionColor s.regionColors name
    let regionColors1 :=
      match r.1 with
      | some color => mapSet r.2 name color
      | none => r.2
    (refreshRegionSelect { s with regions := regions1, regionColors := regionColors1 }, none)

/-- Source `btnAddSelectedToRegion.onclick`; `name` is `regionSelect.value`. When the map has no
such key, `set` is `undefined` and the first `set.add` throws, before any change. -/
def btnAddSelectedToRegion (name : String) (s : State) : State :=
  if name == "" then s
  else
    match mapGet s.regions name with
    | some set =>
      restyleAll (refreshRegionSelect
        { s with regions := mapSet s.regions name (s.selectedPlz.foldl setAdd set) })
    | none => if s.selectedPlz.isEmpty then restyleAll (refreshRegionSelect s) else s

/-- Source `btnRemovePlzFromRegion.onclick`; `name` is `regionSelect.value`. -/
def btnRemovePlzFromRegion (name : String) (s : State) : State :=
  if name == "" then s
  else
    match mapGet s.regions name with
    | some set =>
      restyleAll (refreshRegionSelect
        { s with regions := mapSet s.regions name (s.selectedPlz.foldl setDelete set) })
    | none => if s.selectedPlz.isEmpty then restyleAll (refreshRegionSelect s) else s

/-- Source `btnDeleteRegion.onclick`; `confirmed` is the answer to the `confirm` dialog. -/
def btnDeleteRegion (name : String) (confirmed : Bool) (s : State) : State :=
  if name == "" then s
  else if !confirmed then s
  else
    restyleAll (refreshRegionSelect
      { s with regions := mapDelete s.regions name, regionColors := mapDelete s.regionColors name })

/-- Source `btnResetAll.onclick`; `confirmed` is the answer to the `confirm` dialog. -/
def btnResetAll (confirmed : Bool) (s : State) : State :=
  if !confirmed then s
  else
    refreshRegionSelect
      { selectedPlz := [], regions := [], regionColors := [], featureIndex := [] }

/-- The states the editor reaches from the initial one through the region buttons. The
last constructor stands for the map-side handlers (file load, lasso, clear selection), which
install a new feature index and a new selection: any value of the two is allowed. -/
inductive Reachable : State → Prop
  | init : Reachable initialState
  | create (input : String) {s : State} : Reachable s → Reachable (btnCreateRegion input s).1
  | addSelected (name : String) {s : State} :
      Reachable s → Reachable (btnAddSelectedToRegion name s)
  | removeSelected (name : String) {s : State} :
      Reachable s → Reachable (btnRemovePlzFromRegion name s)
  | delete (name : String) (confirmed : Bool) {s : State} :
      Reachable s → Reachable (btnDeleteRegion name confirmed s)
  | reset (confirmed : Bool) {s : State} : Reachable s → Reachable (btnResetAll confirmed s)
  | click (inside : Nat → Bool) {s : State} : Reachable s → Reachable (onMapClick inside s)
  | mapSide (sel : List String) (fi : List FeatureRec) {s : State} :
      Reachable s → Reachable { s with selectedPlz := sel, featureIndex := fi }

/-! ## JSON values -/

/-- A value produced by `JSON.parse`. Numbers carry an integer tag only: no handler
modelled here looks inside a number. -/
inductive JVal where
  | null : JVal
  | bool (b : Bool) : JVal
  | num (n : Int) : JVal
  | str (s : String) : JVal
  | arr (items : List JVal) : JVal
  | obj (fields : List (String × JVal)) : JVal

/-- JavaScript `typeof v === 'string'`, with the string. -/
def JVal.asString : JVal → Option String
  | .str s => some s
  | _ => none

/-- JavaScript `/^\d{5}$/.test(str)`: exactly five characters, each one of `0`..`9`. -/
def isFiveDigits (str : String) : Bool :=
  str.data.length == 5 && str.data.all Char.isDigit

/-! ## Guessing the postal-code key -/

/-- The first loop of `guessPlzKey`, over `candidates`. -/
def guessCandidate (keys : List String) : List String → Option String
  | [] => none
  | c :: rest => if keys.contains c then some c else guessCandidate keys rest

/-- The second loop of `guessPlzKey`, over `keys`; `props[k]` is looked up in `props`. -/
def guessFiveDigit (props : List (String × JVal)) : List String → Option String
  | [] => none
  | k :: rest =>
    match mapGet props k with
    | some (.str v) => if isFiveDigits v then some k else guessFiveDigit props rest
    | _ => guessFiveDigit props rest

/-- Source `guessPlzKey(props)`; `props` lists the own enumerable properties of the object in the
order of `Object.keys`, and `none` is `null`. -/
def guessPlzKey (props : List (String × JVal)) : Option String :=
  let keys := mapKeys props
  let candidates := ["plz", "PLZ", "postcode", "postalcode"]
  match guessCandidate keys candidates with
  | some c => some c
  | none => guessFiveDigit props keys

/-! ## Export -/

/-- The UTF-16 code units of a character. -/
def utf16 (c : Char) : List Nat :=
  let n := c.toNat
  if n < 0x10000 then [n] else [0xD800 + (n - 0x10000) / 0x400, 0xDC00 + (n - 0x10000) % 0x400]

/-- The UTF-16 code units of a string, which is what JavaScript compares. -/
def codeUnits (str : String) : List Nat := str.data.flatMap utf16

/-- Holds when `a` comes no later than `b` in the default order of `Array.prototype.sort`. -/
def jsStringLe (a b : String) : Prop := codeUnits a ≤ codeUnits b

instance : DecidableRel jsStringLe := fun a b => inferInstanceAs (Decidable (codeUnits a ≤ codeUnits b))

instance : IsTotal String jsStringLe := ⟨fun a b => le_total (codeUnits a) (codeUnits b)⟩

instance : IsTrans String jsStringLe :=
  ⟨fun a b c (h1 : codeUnits a ≤ codeUnits b) (h2 : codeUnits b ≤ codeUnits c) => le_trans h1 h2⟩

/-- JavaScript `arr.sort()` on an array of strings. -/
def jsSort (arr : List String) : List String := arr.insertionSort jsStringLe

/-- JavaScript `data[name] = value` on an object that started as `{}`: the own properties afterwards.
Assigning to `__proto__` calls the setter inherited from `Object.prototype`, which replaces
the prototype (the value is an array, so an object) and creates no own property. The order
of the own properties is not modelled. -/
def objAssign {β : Type} (data : List (String × β)) (name : String) (value : β) :
    List (String × β) :=
  if name == "__proto__" then data else mapSet data name value

/-- The loop of `btnExportJson.onclick`: the own properties of `data` at the end. -/
def exportData (regions : List (String × List String)) : List (String × List String) :=
  regions.foldl (fun data e => objAssign data e.1 (jsSort e.2)) []

/-- Source `btnExportJson.onclick`: the state afterwards and the value that is serialised into the
file; `created` is `new Date().toISOString()`. -/
def btnExportJson (created : String) (s : State) : State × JVal :=
  let data := exportData s.regions
  (s, .obj [("regions", .obj (data.map (fun e => (e.1, JVal.arr (e.2.map JVal.str))))),
            ("created", .str created)])

/-! ## Local storage -/

/-- The string stored under `'plz_region_state'`, described by what `JSON.parse` does with
it: the empty string, a text on which `JSON.parse` throws, or a text that parses to `v`.
`JSON.stringify` of a tree of strings, arrays and plain objects is taken to parse back to
that tree. -/
inductive StoredText where
  | empty : StoredText
  | notJson : StoredText
  | json (v : JVal) : StoredText

/-- Source `btnSaveLocal.onclick`: the item written under `'plz_region_state'` and the `alert`
message. The state is not changed. -/
def btnSaveLocal (s : State) : Option StoredText × String :=
  let state := JVal.obj
    [("regions", .arr (s.regions.map (fun e => JVal.arr [.str e.1, .arr (e.2.map JVal.str)]))),
     ("regionColors", .arr (s.regionColors.map (fun e => JVal.arr [.str e.1, .str e.2])))]
  (some (.json state), "Gespeichert im Browser.")

/-- The result of evaluating an expression of the load handler: a value that fits the typed
state, an exception, or a value the typed state cannot hold (a name, code or colour that is
not a string). -/
inductive Eval (α : Type) where
  | value (a : α) : Eval α
  | throws : Eval α
  | untyped : Eval α

/-- The result of a loop of the load handler over the map `α` it fills: run to the end,
stopped by an exception with the entries set so far, or left the typed state. -/
inductive Run (α : Type) where
  | done (a : α) : Run α
  | thrown (a : α) : Run α
  | untyped : Run α

/-- The elements a `for...of` or an array pattern takes from a parsed value: the items of an
array, the code points of a string; `none` when the value is not iterable (TypeError). -/
def jsIterate : JVal → Option (List JVal)
  | .arr items => some items
  | .str s => some (s.data.map (fun c => JVal.str (String.singleton c)))
  | _ => none

/-- Source `obj.regions` or `obj.regionColors` followed by the start of the `for...of`: the items to
loop over, or `none` when an exception is thrown (`obj` is `null`, the property is missing,
or its value is not iterable). -/
def jsIterateProp (obj : JVal) (name : String) : Option (List JVal) :=
  match obj with
  | .obj fields =>
    match mapGet fields name with
    | some v => jsIterate v
    | none => none
  | _ => none

/-- The strings of an array all of whose items are strings. -/
def asStrings : List JVal → Option (List String)
  | [] => some []
  | .str s :: rest =>
    match asStrings rest with
    | some l => some (s :: l)
    | none => none
  | _ :: _ => none

/-- JavaScript `new Set(arr)` where `arr` comes out of an array pattern (`none` is `undefined`). -/
def newSet : Option JVal → Eval (List String)
  | none => .value []
  | some .null => .value []
  | some v =>
    match jsIterate v with
    | none => .throws
    | some items =>
      match asStrings items with
      | some codes => .value (setFromArray codes)
      | none => .untyped

/-- Source `for (const [name, arr] of obj.regions) regions.set(name, new Set(arr))`. -/
def loadRegions : List JVal → List (String × List String) → Run (List (String × List String))
  | [], regions => .done regions
  | el :: rest, regions =>
    match jsIterate el with
    | none => .thrown regions
    | some parts =>
      match newSet (parts.get? 1) with
      | .throws => .thrown regions
      | .untyped => .untyped
      | .value set =>
        match parts.get? 0 with
        | some (.str name) => loadRegions rest (mapSet regions name set)
        | _ => .untyped

/-- Source `for (const [name, color] of obj.regionColors) regionColors.set(name, color)`. -/
def loadRegionColors : List JVal → List (String × String) → Run (List (String × String))
  | [], regionColors => .done regionColors
  | el :: rest, regionColors =>
    match jsIterate el with
    | none => .thrown regionColors
    | some parts =>
      match parts.get? 0, parts.get? 1 with
      | some (.str name), some (.str color) =>
        loadRegionColors rest (mapSet regionColors name color)
      | _, _ => .untyped

/-- Source `btnLoadLocal.onclick`; `raw` is `localStorage.getItem('plz_region_state')`, with `none`
for `null`. The result is the state afterwards and the `alert` message, if any; it is `none`
when the stored value puts a non-string into the maps. -/
def btnLoadLocal (raw : Option StoredText) (s : State) : Option (State × Option String) :=
  match raw with
  | none => some (s, some "Keine gespeicherten Daten gefunden.")
  | some .empty => some (s, some "Keine gespeicherten Daten gefunden.")
  | some .notJson => some (s, some "Fehler beim Laden.")
  | some (.json obj) =>
    let s1 := { s with regions := [] }
    match jsIterateProp obj "regions" with
    | none => some (s1, some "Fehler beim Laden.")
    | some items =>
      match loadRegions items [] with
      | .untyped => none
      | .thrown regions => some ({ s1 with regions := regions }, some "Fehler beim Laden.")
      | .done regions =>
        let s2 := { s1 with regions := regions, regionColors := [] }
        match jsIterateProp obj "regionColors" with
        | none => some (s2, some "Fehler beim Laden.")
        | some colorItems =>
          match loadRegionColors colorItems [] with
          | .untyped => none
          | .thrown regionColors =>
            some ({ s2 with regionColors := regionColors }, some "Fehler beim Laden.")
          | .done regionColors =>
            some (restyleAll (refreshRegionSelect { s2 with regionColors := regionColors }), none)

/-! ## The alert of the load handler -/

/-- Whether `new Set(arr)` throws: `undefined` and `null` give the empty set, an array or a
string is iterated, anything else is not iterable. -/
def newSetThrows : Option JVal → Bool
  | none => false
  | some .null => false
  | some v => (jsIterate v).isNone

/-- Whether `for (const [name, arr] of obj.regions) regions.set(name, new Set(arr))` throws:
at the first item that cannot be destructured or whose second component cannot be made into
a `Set`. What the components are otherwise plays no part. -/
def loadRegionsThrows : List JVal → Bool
  | [] => false
  | el :: rest =>
    match jsIterate el with
    | none => true
    | some parts => if newSetThrows (parts.get? 1) then true else loadRegionsThrows rest

/-- Whether `for (const [name, color] of obj.regionColors) regionColors.set(name, color)`
throws: at the first item that cannot be destructured. -/
def loadRegionColorsThrows : List JVal → Bool
  | [] => false
  | el :: rest =>
    match jsIterate el with
    | none => true
    | some _ => loadRegionColorsThrows rest

/-- The `alert` raised by `btnLoadLocal.onclick`, for every stored value, also one that puts
a name, code or colour that is not a string into the maps: the `catch` block runs exactly
when one of the two property reads or one of the two loops throws. -/
def btnLoadLocalAlert (raw : Option StoredText) : Option String :=
  match raw with
  | none => some "Keine gespeicherten Daten gefunden."
  | some .empty => some "Keine gespeicherten Daten gefunden."
  | some .notJson => some "Fehler beim Laden."
  | some (.json obj) =>
    match jsIterateProp obj "regions" with
    | none => some "Fehler beim Laden."
    | some items =>
      if loadRegionsThrows items then some "Fehler beim Laden."
      else
        match jsIterateProp obj "regionColors" with
        | none => some "Fehler beim Laden."
        | some colorItems =>
          if loadRegionColorsThrows colorItems then some "Fehler beim Laden." else none

/-! ## Example states -/

/-- A colour map in which all seven palette entries are in use. -/
def exFull : List (String × String) :=
  [("a", "#ef4444"), ("b", "#10b981"), ("c", "#3b82f6"), ("d", "#f59e0b"), ("e", "#8b5cf6"),
   ("f", "#14b8a6"), ("g", "#6366f1")]

/-- A stored value whose only region holds a number as code and which has no
`regionColors`. -/
def exNumberCode : JVal :=
  .obj [("regions", .arr [.arr [.str "A", .arr [.num 1]]])]


/-- One region `Berlin` holding `10115`, coloured with the first palette entry, and a
selection of the same code. -/
def exOverlap : State :=
  { selectedPlz := ["10115"], regions := [("Berlin", ["10115"])],
    regionColors := [("Berlin", "#ef4444")], featureIndex := [] }

/-- One region `Berlin` holding `10115` and a selection of another code. -/
def exDisjoint : State :=
  { selectedPlz := ["10117"], regions := [("Berlin", ["10115"])],
    regionColors := [("Berlin", "#ef4444")], featureIndex := [⟨"10115", 0⟩, ⟨"10117", 1⟩] }

/-- A region without a colour, as left behind by a load that stopped at a stored value
without `regionColors`. -/
def exUncoloured : State :=
  { selectedPlz := [], regions := [("Berlin", ["10115"])], regionColors := [],
    featureIndex := [] }

/-! ## The invariant of the region editor -/

/-- Two entries of the colour map share a colour only if it is the fallback colour. -/
def ColorsOk (regionColors : List (String × String)) : Prop :=
  regionColors.Pairwise (fun a b => a.2 = b.2 → a.2 = fallbackColor)

/-- The Region Store and the colour map list the same names in the same order, no name
twice, and palette colours are not shared. -/
def Inv (s : State) : Prop :=
  mapKeys s.regions = mapKeys s.regionColors ∧ (mapKeys s.regionColors).Nodup ∧
  ColorsOk s.regionColors

/-! ## Laws of the list model of `Map` and `Set` -/

theorem setHas_iff (s : List String) (p : String) : setHas s p = true ↔ p ∈ s := by
  simp [setHas]

theorem mem_setAdd (s : List String) (p q : String) : q ∈ setAdd s p ↔ q ∈ s ∨ q = p := by
  unfold setAdd
  split
  · rename_i h
    rw [setHas_iff] at h
    constructor
    · intro hq; exact Or.inl hq
    · rintro (hq | rfl)
      · exact hq
      · exact h
  · simp

theorem mem_setDelete (s : List String) (p q : String) : q ∈ setDelete s p ↔ q ∈ s ∧ q ≠ p := by
  simp [setDelete]

theorem mapHas_iff {β : Type} (m : List (String × β)) (k : String) :
    mapHas m k = true ↔ k ∈ mapKeys m := by
  simp only [mapHas, mapKeys, List.any_eq_true, List.mem_map, beq_iff_eq]

theorem mapHas_eq_false_iff {β : Type} (m : List (String × β)) (k : String) :
    mapHas m k = false ↔ k ∉ mapKeys m := by
  rw [← mapHas_iff]; simp

theorem mapGet_eq_none_iff {β : Type} (m : List (String × β)) (k : String) :
    mapGet m k = none ↔ k ∉ mapKeys m := by
  simp only [mapGet, mapKeys, Option.map_eq_none', List.find?_eq_none, List.mem_map, beq_iff_eq]
  constructor
  · rintro h ⟨e, he, rfl⟩
    exact h e he rfl
  · intro h e he hk
    exact h ⟨e, he, hk⟩

theorem mapGet_isSome_iff {β : Type} (m : List (String × β)) (k : String) :
    (mapGet m k).isSome = true ↔ k ∈ mapKeys m := by
  rw [← not_iff_not, ← mapGet_eq_none_iff]
  cases mapGet m k <;> simp

theorem mapGet_cons {β : Type} (e : String × β) (m : List (String × β)) (k : String) :
    mapGet (e :: m) k = if e.1 = k then some e.2 else mapGet m k := by
  unfold mapGet
  by_cases h : e.1 = k
  · simp [List.find?_cons, h]
  · simp [List.find?_cons, h]

theorem mapGet_append_of_mem {β : Type} (m m2 : List (String × β)) (k : String)
    (h : k ∈ mapKeys m) : mapGet (m ++ m2) k = mapGet m k := by
  induction m with
  | nil => simp [mapKeys] at h
  | cons e m ih =>
    simp only [List.cons_append, mapGet_cons]
    by_cases hk : e.1 = k
    · simp [hk]
    · simp only [hk, if_false]
      apply ih
      simp only [mapKeys, List.map_cons, List.mem_cons] at h
      rcases h with h | h
      · exact absurd h.symm hk
      · exact h

theorem mapGet_append_of_not_mem {β : Type} (m m2 : List (String × β)) (k : String)
    (h : k ∉ mapKeys m) : mapGet (m ++ m2) k = mapGet m2 k := by
  induction m with
  | nil => rfl
  | cons e m ih =>
    simp only [mapKeys, List.map_cons, List.mem_cons, not_or] at h
    simp only [List.cons_append, mapGet_cons]
    rw [if_neg (fun hk => h.1 hk.symm)]
    exact ih h.2

theorem mapGet_map_update {β : Type} (m : List (String × β)) (k k2 : String) (v : β) :
    mapGet (m.map (fun e => if e.1 == k then (e.1, v) else e)) k2 =
      if k2 = k then (mapGet m k2).map (fun _ => v) else mapGet m k2 := by
  induction m with
  | nil => simp [mapGet]
  | cons e m ih =>
    simp only [List.map_cons, mapGet_cons, ih]
    by_cases h1 : e.1 = k
    · by_cases h2 : k2 = k
      · subst h2; simp [h1]
      · have h3 : ¬ k = k2 := fun h => h2 h.symm
        simp [h1, h2, h3]
    · by_cases h2 : e.1 = k2
      · have : ¬ k2 = k := fun h => h1 (h2.trans h)
        simp [h1, h2, this]
      · simp [h1, h2]

theorem mapGet_mapSet_self {β : Type} (m : List (String × β)) (k : String) (v : β) :
    mapGet (mapSet m k v) k = some v := by
  unfold mapSet
  split
  · rename_i h
    rw [mapGet_map_update, if_pos rfl]
    have := (mapGet_isSome_iff m k).2 ((mapHas_iff m k).1 h)
    cases hg : mapGet m k with
    | none => simp [hg] at this
    | some x => rfl
  · rename_i h
    have h2 : k ∉ mapKeys m := by
      rw [← mapHas_iff]; exact h
    rw [mapGet_append_of_not_mem m _ k h2, mapGet_cons]
    simp

theorem mapGet_mapSet_ne {β : Type} (m : List (String × β)) (k k2 : String) (v : β)
    (hne : k2 ≠ k) : mapGet (mapSet m k v) k2 = mapGet m k2 := by
  unfold mapSet
  split
  · rw [mapGet_map_update, if_neg hne]
  · by_cases h2 : k2 ∈ mapKeys m
    · exact mapGet_append_of_mem m _ k2 h2
    · rw [mapGet_append_of_not_mem m _ k2 h2, mapGet_cons, if_neg (fun h => hne h.symm)]
      rw [(mapGet_eq_none_iff m k2).2 h2]
      rfl

theorem mapKeys_mapSet {β : Type} (m : List (String × β)) (k : String) (v : β) :
    mapKeys (mapSet m k v) = if k ∈ mapKeys m then mapKeys m else mapKeys m ++ [k] := by
  unfold mapSet
  by_cases h : mapHas m k = true
  · rw [if_pos h, if_pos ((mapHas_iff m k).1 h)]
    simp only [mapKeys, List.map_map]
    apply List.map_congr_left
    intro e _
    by_cases he : e.1 = k <;> simp [he]
  · rw [if_neg h, if_neg (fun hk => h ((mapHas_iff m k).2 hk))]
    simp [mapKeys]

theorem mapSet_of_not_mem {β : Type} (m : List (String × β)) (k : String) (v : β)
    (h : k ∉ mapKeys m) : mapSet m k v = m ++ [(k, v)] := by
  unfold mapSet
  rw [if_neg]
  rw [mapHas_iff]; exact h

/-- The first element satisfying `p`, as found by `Array.prototype.find`, by position. -/
theorem find?_first {α : Type} (p : α → Bool) (l : List α) :
    (∀ c, l.find? p = some c →
      ∃ i : Nat, l[i]? = some c ∧ p c = true ∧ ∀ j : Nat, j < i → ∀ x, l[j]? = some x → p x = false) ∧
    (l.find? p = none → ∀ x ∈ l, p x = false) := by
  induction l with
  | nil => simp
  | cons a l ih =>
    by_cases ha : p a = true
    · constructor
      · intro c hc
        simp only [List.find?_cons, ha] at hc
        cases hc
        exact ⟨0, by simp, ha, fun j hj => absurd hj (Nat.not_lt_zero j)⟩
      · intro hn
        simp [List.find?_cons, ha] at hn
    · have ha2 : p a = false := by simpa using ha
      constructor
      · intro c hc
        simp only [List.find?_cons, ha2] at hc
        obtain ⟨i, hi, hpc, hlt⟩ := ih.1 c hc
        refine ⟨i + 1, by simpa using hi, hpc, ?_⟩
        intro j hj x hx
        cases j with
        | zero =>
          simp at hx
          rw [← hx]; exact ha2
        | succ j =>
          exact hlt j (Nat.lt_of_succ_lt_succ hj) x (by simpa using hx)
      · intro hn x hx
        simp only [List.find?_cons, ha2] at hn
        rcases List.mem_cons.1 hx with rfl | hx
        · exact ha2
        · exact ih.2 hn x hx

/-! ## Colour assignment -/

theorem getRegionColor_of_mem (M : List (String × String)) (n : String)
    (h : n ∈ mapKeys M) : getRegionColor M n = (mapGet M n, M) := by
  unfold getRegionColor
  rw [(mapHas_iff M n).2 h]
  rfl

theorem getRegionColor_of_not_mem (M : List (String × String)) (n : String)
    (h : n ∉ mapKeys M) :
    getRegionColor M n =
      (some ((palette.find? (fun c => !(mapValues M).contains c)).getD fallbackColor),
        M ++ [(n, (palette.find? (fun c => !(mapValues M).contains c)).getD fallbackColor)]) := by
  unfold getRegionColor
  rw [(mapHas_eq_false_iff M n).2 h]
  simp only [Bool.not_false, if_true]
  rw [mapGet_mapSet_self, mapSet_of_not_mem M n _ h]

/-- C6: `getRegionColor(n)` returns the colour `n` already has and leaves the colour map as
it is; for a name without a colour it returns the first entry, in palette order, of the
seven-entry palette `#ef4444`, `#10b981`, `#3b82f6`, `#f59e0b`, `#8b5cf6`, `#14b8a6`,
`#6366f1` that is not a value of the map, or `'#111827'` when all seven entries are values,
and the map afterwards is the old one extended with `n` mapped to the returned colour, every
other name keeping its colour. -/
theorem getRegionColor_spec (M : List (String × String)) (n : String) :
    (∀ c, mapGet M n = some c → getRegionColor M n = (some c, M)) ∧
    (mapGet M n = none →
      ∃ c, getRegionColor M n = (some c, M ++ [(n, c)]) ∧
        ((∃ i : Nat,
            ["#ef4444", "#10b981", "#3b82f6", "#f59e0b", "#8b5cf6", "#14b8a6", "#6366f1"][i]? =
              some c ∧
            c ∉ mapValues M ∧
            ∀ j : Nat, j < i → ∀ x,
              ["#ef4444", "#10b981", "#3b82f6", "#f59e0b", "#8b5cf6", "#14b8a6", "#6366f1"][j]? =
                some x → x ∈ mapValues M) ∨
         ((∀ x ∈ ["#ef4444", "#10b981", "#3b82f6", "#f59e0b", "#8b5cf6", "#14b8a6", "#6366f1"],
            x ∈ mapValues M) ∧ c = "#111827")) ∧
        mapGet (M ++ [(n, c)]) n = some c ∧
        ∀ k, k ≠ n → mapGet (M ++ [(n, c)]) k = mapGet M k) ∧
    palette = ["#ef4444", "#10b981", "#3b82f6", "#f59e0b", "#8b5cf6", "#14b8a6", "#6366f1"] ∧
    palette.length = 7 ∧ fallbackColor = "#111827" := by
  refine ⟨?_, ?_, rfl, rfl, rfl⟩
  · intro c hc
    have hmem : n ∈ mapKeys M := by
      rw [← mapGet_isSome_iff, hc]; rfl
    rw [getRegionColor_of_mem M n hmem, hc]
  · intro hnone
    have hnm : n ∉ mapKeys M := (mapGet_eq_none_iff M n).1 hnone
    refine ⟨_, getRegionColor_of_not_mem M n hnm, ?_, ?_, ?_⟩
    · have hf := find?_first (fun c => !(mapValues M).contains c) palette
      have hpal : palette =
          ["#ef4444", "#10b981", "#3b82f6", "#f59e0b", "#8b5cf6", "#14b8a6", "#6366f1"] := rfl
      cases hfind : palette.find? (fun c => !(mapValues M).contains c) with
      | some c =>
        left
        obtain ⟨i, hi, hpc, hlt⟩ := hf.1 c hfind
        rw [hpal] at hi hlt
        refine ⟨i, hi, ?_, ?_⟩
        · simpa using hpc
        · intro j hj x hx
          simpa using hlt j hj x hx
      | none =>
        right
        refine ⟨?_, rfl⟩
        intro x hx
        have hx2 : x ∈ palette := by rw [hpal]; exact hx
        simpa using hf.2 hfind x hx2
    · rw [mapGet_append_of_not_mem M _ n hnm, mapGet_cons]
      simp
    · intro k hk
      by_cases hkm : k ∈ mapKeys M
      · exact mapGet_append_of_mem M _ k hkm
      · rw [mapGet_append_of_not_mem M _ k hkm, mapGet_cons, if_neg (fun h => hk h.symm),
          (mapGet_eq_none_iff M k).2 hkm]
        rfl

/-! ## Style resolution -/

theorem styleForLoop_none (p : String) (rc : List (String × String))
    (regions : List (String × List String)) (h : ∀ e ∈ regions, p ∉ e.2) :
    styleForLoop p rc regions = none := by
  induction regions with
  | nil => rfl
  | cons e rest ih =>
    obtain ⟨region, set⟩ := e
    have h1 : setHas set p = false := by
      have := h (region, set) (List.mem_cons_self _ _)
      rw [← Bool.not_eq_true, setHas_iff]; exact this
    simp only [styleForLoop, h1]
    exact ih (fun e he => h e (List.mem_cons_of_mem _ he))

theorem styleForLoop_first (p : String) (rc : List (String × String))
    (regions : List (String × List String)) (i : Nat) (r : String) (set : List String)
    (hi : regions[i]? = some (r, set)) (hp : p ∈ set)
    (hlt : ∀ j : Nat, j < i → ∀ e : String × List String, regions[j]? = some e → p ∉ e.2) :
    styleForLoop p rc regions =
      some ({ color := "#1f2937", weight := 1.5, fillColor := (getRegionColor rc r).1,
              fillOpacity := 0.35 }, (getRegionColor rc r).2) := by
  induction regions generalizing i with
  | nil => simp at hi
  | cons e rest ih =>
    obtain ⟨region, set2⟩ := e
    cases i with
    | zero =>
      simp only [List.getElem?_cons_zero, Option.some.injEq, Prod.mk.injEq] at hi
      obtain ⟨rfl, rfl⟩ := hi
      simp only [styleForLoop, (setHas_iff _ p).2 hp, if_true]
    | succ i =>
      have h0 : setHas set2 p = false := by
        have := hlt 0 (Nat.succ_pos i) (region, set2) (by simp)
        rw [← Bool.not_eq_true, setHas_iff]; exact this
      simp only [styleForLoop, h0]
      apply ih i (by simpa using hi)
      intro j hj e he
      exact hlt (j + 1) (Nat.succ_lt_succ hj) e (by simpa using he)

/-- C5: `styleFor(p)` returns the member style (`color '#1f2937'`, `weight 1.5`,
`fillOpacity 0.35`, `fillColor` the colour of `r`) for the first region `r`, in insertion
order, whose code set contains `p`, whether or not `p` is selected; when no region contains
`p` it returns `selectedStyle` if `p` is selected and `defaultStyle` otherwise. -/
theorem styleFor_spec (s : State) (p : String) :
    (∀ (i : Nat) (r : String) (set : List String), s.regions[i]? = some (r, set) → p ∈ set →
      (∀ j : Nat, j < i → ∀ e : String × List String, s.regions[j]? = some e → p ∉ e.2) →
      (styleFor s p).1 =
        { color := "#1f2937", weight := 1.5, fillColor := (getRegionColor s.regionColors r).1,
          fillOpacity := 0.35 } ∧
      (∃ c, (styleFor s p).1.fillColor = some c ∧
        mapGet (getRegionColor s.regionColors r).2 r = some c) ∧
      (∀ c, mapGet s.regionColors r = some c → (styleFor s p).1.fillColor = some c)) ∧
    ((∀ e ∈ s.regions, p ∉ e.2) →
      (styleFor s p).1 = if p ∈ s.selectedPlz then selectedStyle else defaultStyle) := by
  constructor
  · intro i r set hi hp hlt
    have hloop := styleForLoop_first p s.regionColors s.regions i r set hi hp hlt
    have h1 : (styleFor s p).1 =
        { color := "#1f2937", weight := 1.5, fillColor := (getRegionColor s.regionColors r).1,
          fillOpacity := 0.35 } := by
      unfold styleFor
      rw [hloop]
    refine ⟨h1, ?_, ?_⟩
    · rw [h1]
      by_cases hm : r ∈ mapKeys s.regionColors
      · rw [getRegionColor_of_mem _ _ hm]
        have := (mapGet_isSome_iff s.regionColors r).2 hm
        cases hg : mapGet s.regionColors r with
        | none => simp [hg] at this
        | some c => exact ⟨c, rfl, rfl⟩
      · rw [getRegionColor_of_not_mem _ _ hm]
        refine ⟨_, rfl, ?_⟩
        rw [mapGet_append_of_not_mem _ _ _ hm, mapGet_cons]
        simp
    · intro c hc
      rw [h1]
      have hm : r ∈ mapKeys s.regionColors := by
        rw [← mapGet_isSome_iff, hc]; rfl
      rw [getRegionColor_of_mem _ _ hm]
      exact hc
  · intro hnone
    unfold styleFor
    rw [styleForLoop_none p s.regionColors s.regions hnone]
    by_cases hs : p ∈ s.selectedPlz
    · simp [(setHas_iff _ _).2 hs, hs]
    · have : setHas s.selectedPlz p = false := by
        rw [← Bool.not_eq_true, setHas_iff]; exact hs
      simp [this, hs]

/-! ## Guessing the postal-code key -/

theorem guessCandidate_pos (keys : List String) (c : String) (rest : List String)
    (h : c ∈ keys) : guessCandidate keys (c :: rest) = some c := by
  have : keys.contains c = true := by simpa using h
  rw [guessCandidate, if_pos this]

theorem guessCandidate_neg (keys : List String) (c : String) (rest : List String)
    (h : c ∉ keys) : guessCandidate keys (c :: rest) = guessCandidate keys rest := by
  have : ¬ keys.contains c = true := by simpa using h
  rw [guessCandidate, if_neg this]

theorem guessCandidate_none (keys cands : List String) (h : ∀ c ∈ cands, c ∉ keys) :
    guessCandidate keys cands = none := by
  induction cands with
  | nil => rfl
  | cons c rest ih =>
    rw [guessCandidate_neg keys c rest (h c (List.mem_cons_self _ _))]
    exact ih (fun d hd => h d (List.mem_cons_of_mem _ hd))

theorem guessCandidate_first (keys cands : List String) (i : Nat) (c : String)
    (hi : cands[i]? = some c) (hc : c ∈ keys)
    (hlt : ∀ j : Nat, j < i → ∀ d, cands[j]? = some d → d ∉ keys) :
    guessCandidate keys cands = some c := by
  induction cands generalizing i with
  | nil => simp at hi
  | cons d rest ih =>
    cases i with
    | zero =>
      simp only [List.getElem?_cons_zero, Option.some.injEq] at hi
      subst hi
      exact guessCandidate_pos keys d rest hc
    | succ i =>
      rw [guessCandidate_neg keys d rest (hlt 0 (Nat.succ_pos i) d (by simp))]
      apply ih i (by simpa using hi)
      intro j hj e he
      exact hlt (j + 1) (Nat.succ_lt_succ hj) e (by simpa using he)

theorem guessCandidate_eq_none (keys cands : List String)
    (h : guessCandidate keys cands = none) : ∀ c ∈ cands, c ∉ keys := by
  induction cands with
  | nil => simp
  | cons d rest ih =>
    by_cases hd : d ∈ keys
    · rw [guessCandidate_pos keys d rest hd] at h
      cases h
    · rw [guessCandidate_neg keys d rest hd] at h
      intro c hc
      rcases List.mem_cons.1 hc with rfl | hc
      · exact hd
      · exact ih h c hc

theorem guessFiveDigit_pos (props : List (String × JVal)) (k : String) (rest : List String)
    (h : ∃ v, mapGet props k = some (.str v) ∧ isFiveDigits v = true) :
    guessFiveDigit props (k :: rest) = some k := by
  obtain ⟨v, hv, h5⟩ := h
  rw [guessFiveDigit, hv]
  simp only [h5, if_true]

theorem guessFiveDigit_neg (props : List (String × JVal)) (k : String) (rest : List String)
    (h : ¬ ∃ v, mapGet props k = some (.str v) ∧ isFiveDigits v = true) :
    guessFiveDigit props (k :: rest) = guessFiveDigit props rest := by
  rw [guessFiveDigit]
  split
  · rename_i v hv
    have h5 : ¬ isFiveDigits v = true := fun h5 => h ⟨v, hv, h5⟩
    rw [if_neg h5]
  · rfl

theorem guessFiveDigit_none (props : List (String × JVal)) (keys : List String)
    (h : ∀ k ∈ keys, ¬ ∃ v, mapGet props k = some (.str v) ∧ isFiveDigits v = true) :
    guessFiveDigit props keys = none := by
  induction keys with
  | nil => rfl
  | cons k rest ih =>
    rw [guessFiveDigit_neg props k rest (h k (List.mem_cons_self _ _))]
    exact ih (fun d hd => h d (List.mem_cons_of_mem _ hd))

theorem guessFiveDigit_eq_none (props : List (String × JVal)) (keys : List String)
    (h : guessFiveDigit props keys = none) :
    ∀ k ∈ keys, ¬ ∃ v, mapGet props k = some (.str v) ∧ isFiveDigits v = true := by
  induction keys with
  | nil => simp
  | cons k rest ih =>
    by_cases hk : ∃ v, mapGet props k = some (.str v) ∧ isFiveDigits v = true
    · rw [guessFiveDigit_pos props k rest hk] at h
      cases h
    · rw [guessFiveDigit_neg props k rest hk] at h
      intro d hd
      rcases List.mem_cons.1 hd with rfl | hd
      · exact hk
      · exact ih h d hd

theorem guessFiveDigit_first (props : List (String × JVal)) (keys : List String) (i : Nat)
    (k : String) (hi : keys[i]? = some k)
    (hk : ∃ v, mapGet props k = some (.str v) ∧ isFiveDigits v = true)
    (hlt : ∀ j : Nat, j < i → ∀ d, keys[j]? = some d →
      ¬ ∃ v, mapGet props d = some (.str v) ∧ isFiveDigits v = true) :
    guessFiveDigit props keys = some k := by
  induction keys generalizing i with
  | nil => simp at hi
  | cons d rest ih =>
    cases i with
    | zero =>
      simp only [List.getElem?_cons_zero, Option.some.injEq] at hi
      subst hi
      exact guessFiveDigit_pos props d rest hk
    | succ i =>
      rw [guessFiveDigit_neg props d rest (hlt 0 (Nat.succ_pos i) d (by simp))]
      apply ih i (by simpa using hi)
      intro j hj e he
      exact hlt (j + 1) (Nat.succ_lt_succ hj) e (by simpa using he)

theorem mapGet_of_mem_nodup {β : Type} (m : List (String × β)) (e : String × β)
    (hnd : (mapKeys m).Nodup) (he : e ∈ m) : mapGet m e.1 = some e.2 := by
  induction m with
  | nil => simp at he
  | cons a m ih =>
    simp only [mapKeys, List.map_cons, List.nodup_cons] at hnd
    rw [mapGet_cons]
    rcases List.mem_cons.1 he with rfl | he
    · simp
    · have hne : ¬ a.1 = e.1 := by
        intro h
        apply hnd.1
        rw [h]
        exact List.mem_map_of_mem _ he
      rw [if_neg hne]
      exact ih hnd.2 he

theorem mem_of_mapGet {β : Type} (m : List (String × β)) (k : String) (v : β)
    (h : mapGet m k = some v) : (k, v) ∈ m := by
  induction m with
  | nil => simp [mapGet] at h
  | cons a m ih =>
    rw [mapGet_cons] at h
    by_cases hk : a.1 = k
    · rw [if_pos hk] at h
      cases h
      subst hk
      exact List.mem_cons_self _ _
    · rw [if_neg hk] at h
      exact List.mem_cons_of_mem _ (ih h)

theorem isFiveDigits_iff (str : String) :
    isFiveDigits str = true ↔ str.length = 5 ∧ ∀ c ∈ str.data, '0' ≤ c ∧ c ≤ '9' := by
  simp only [isFiveDigits, Bool.and_eq_true, beq_iff_eq, List.all_eq_true, String.length]
  constructor
  · rintro ⟨h1, h2⟩
    refine ⟨h1, fun c hc => ?_⟩
    have := h2 c hc
    simp only [Char.isDigit, Bool.and_eq_true, decide_eq_true_eq] at this
    exact ⟨this.1, this.2⟩
  · rintro ⟨h1, h2⟩
    refine ⟨h1, fun c hc => ?_⟩
    simp only [Char.isDigit, Bool.and_eq_true, decide_eq_true_eq]
    exact ⟨(h2 c hc).1, (h2 c hc).2⟩

/-- C9: `guessPlzKey(props)` returns the first of `plz`, `PLZ`, `postcode`, `postalcode`
that is a key of `props`; when none is a key, the first key, in key order, whose value is a
string of exactly five decimal digits; and it returns `null` exactly when none of the four
names is a key and no property value is such a string. -/
theorem guessPlzKey_spec (props : List (String × JVal)) (hnd : (mapKeys props).Nodup) :
    (∀ (i : Nat) (c : String), ["plz", "PLZ", "postcode", "postalcode"][i]? = some c → c ∈ mapKeys props →
      (∀ j : Nat, j < i → ∀ d, ["plz", "PLZ", "postcode", "postalcode"][j]? = some d →
        d ∉ mapKeys props) →
      guessPlzKey props = some c) ∧
    ((∀ c ∈ ["plz", "PLZ", "postcode", "postalcode"], c ∉ mapKeys props) →
      ∀ (i : Nat) (k : String) (val : JVal), props[i]? = some (k, val) →
        (∃ v, val = .str v ∧ v.length = 5 ∧ ∀ c ∈ v.data, '0' ≤ c ∧ c ≤ '9') →
        (∀ j : Nat, j < i → ∀ e : String × JVal, props[j]? = some e →
          ¬ ∃ v, e.2 = .str v ∧ v.length = 5 ∧ ∀ c ∈ v.data, '0' ≤ c ∧ c ≤ '9') →
        guessPlzKey props = some k) ∧
    (guessPlzKey props = none ↔
      (∀ c ∈ ["plz", "PLZ", "postcode", "postalcode"], c ∉ mapKeys props) ∧
      ∀ e ∈ props, ¬ ∃ v, e.2 = .str v ∧ v.length = 5 ∧ ∀ c ∈ v.data, '0' ≤ c ∧ c ≤ '9') := by
  have hval : ∀ e ∈ props,
      ((∃ v, mapGet props e.1 = some (.str v) ∧ isFiveDigits v = true) ↔
        ∃ v, e.2 = .str v ∧ v.length = 5 ∧ ∀ c ∈ v.data, '0' ≤ c ∧ c ≤ '9') := by
    intro e he
    rw [mapGet_of_mem_nodup props e hnd he]
    constructor
    · rintro ⟨v, hv, h5⟩
      exact ⟨v, Option.some.inj hv, (isFiveDigits_iff v).1 h5⟩
    · rintro ⟨v, hv, h5⟩
      exact ⟨v, by rw [hv], (isFiveDigits_iff v).2 h5⟩
  refine ⟨?_, ?_, ?_⟩
  · intro i c hi hc hlt
    unfold guessPlzKey
    simp only []
    rw [guessCandidate_first (mapKeys props) _ i c hi hc hlt]
  · intro hnone i k val hi hk hlt
    unfold guessPlzKey
    simp only []
    rw [guessCandidate_none (mapKeys props) _ hnone]
    have hmem : (k, val) ∈ props := List.getElem?_mem hi
    apply guessFiveDigit_first props (mapKeys props) i k
    · simp only [mapKeys, List.getElem?_map, hi, Option.map_some']
    · exact (hval (k, val) hmem).2 hk
    · intro j hj d hd
      simp only [mapKeys, List.getElem?_map, Option.map_eq_some'] at hd
      obtain ⟨e, he, rfl⟩ := hd
      rw [hval e (List.getElem?_mem he)]
      exact hlt j hj e he
  · constructor
    · intro h
      unfold guessPlzKey at h
      simp only [] at h
      cases hc : guessCandidate (mapKeys props) ["plz", "PLZ", "postcode", "postalcode"] with
      | some c => rw [hc] at h; cases h
      | none =>
        rw [hc] at h
        refine ⟨guessCandidate_eq_none _ _ hc, ?_⟩
        intro e he
        rw [← hval e he]
        exact guessFiveDigit_eq_none props _ h e.1 (List.mem_map_of_mem _ he)
    · rintro ⟨h1, h2⟩
      unfold guessPlzKey
      simp only []
      rw [guessCandidate_none (mapKeys props) _ h1]
      apply guessFiveDigit_none
      intro k hk
      simp only [mapKeys, List.mem_map] at hk
      obtain ⟨e, he, rfl⟩ := hk
      rw [hval e he]
      exact h2 e he

/-! ## What restyling and refreshing leave alone -/

theorem styleFor_frame (s : State) (p : String) :
    (styleFor s p).2.selectedPlz = s.selectedPlz ∧ (styleFor s p).2.regions = s.regions ∧
    (styleFor s p).2.featureIndex = s.featureIndex := by
  unfold styleFor
  split <;> simp

theorem restyle_frame (s : State) (p : String) :
    (restyle s p).selectedPlz = s.selectedPlz ∧ (restyle s p).regions = s.regions ∧
    (restyle s p).featureIndex = s.featureIndex := by
  unfold restyle
  split
  · exact styleFor_frame s p
  · exact ⟨rfl, rfl, rfl⟩

theorem restyleFold_frame (l : List FeatureRec) (s : State) :
    (l.foldl (fun st f => restyle st f.plz) s).selectedPlz = s.selectedPlz ∧
    (l.foldl (fun st f => restyle st f.plz) s).regions = s.regions ∧
    (l.foldl (fun st f => restyle st f.plz) s).featureIndex = s.featureIndex := by
  induction l generalizing s with
  | nil => exact ⟨rfl, rfl, rfl⟩
  | cons f l ih =>
    simp only [List.foldl_cons]
    obtain ⟨h1, h2, h3⟩ := ih (restyle s f.plz)
    obtain ⟨g1, g2, g3⟩ := restyle_frame s f.plz
    exact ⟨h1.trans g1, h2.trans g2, h3.trans g3⟩

theorem restyleAll_frame (s : State) :
    (restyleAll s).selectedPlz = s.selectedPlz ∧ (restyleAll s).regions = s.regions ∧
    (restyleAll s).featureIndex = s.featureIndex :=
  restyleFold_frame s.featureIndex s

theorem refreshRegionSelect_frame (s : State) :
    (refreshRegionSelect s).selectedPlz = s.selectedPlz ∧
    (refreshRegionSelect s).regions = s.regions ∧
    (refreshRegionSelect s).featureIndex = s.featureIndex :=
  ⟨rfl, rfl, rfl⟩

/-! ## Colours are kept once assigned -/

theorem getRegionColor_keeps (rc : List (String × String)) (n k : String) (c : String)
    (h : mapGet rc k = some c) : mapGet (getRegionColor rc n).2 k = some c := by
  by_cases hn : n ∈ mapKeys rc
  · rw [getRegionColor_of_mem rc n hn]; exact h
  · rw [getRegionColor_of_not_mem rc n hn]
    have hk : k ∈ mapKeys rc := by
      rw [← mapGet_isSome_iff, h]; rfl
    simp only []
    rw [mapGet_append_of_mem rc _ k hk]
    exact h

theorem getRegionColor_has (rc : List (String × String)) (n : String) :
    ∃ c, (getRegionColor rc n).1 = some c ∧ mapGet (getRegionColor rc n).2 n = some c := by
  by_cases hn : n ∈ mapKeys rc
  · rw [getRegionColor_of_mem rc n hn]
    have := (mapGet_isSome_iff rc n).2 hn
    cases hg : mapGet rc n with
    | none => simp [hg] at this
    | some c => exact ⟨c, rfl, rfl⟩
  · rw [getRegionColor_of_not_mem rc n hn]
    refine ⟨_, rfl, ?_⟩
    simp only []
    rw [mapGet_append_of_not_mem rc _ n hn, mapGet_cons]
    simp

theorem refreshFold_keeps (regions : List (String × List String)) (rc : List (String × String))
    (k c : String) (h : mapGet rc k = some c) :
    mapGet (regions.foldl (fun rc e => (getRegionColor rc e.1).2) rc) k = some c := by
  induction regions generalizing rc with
  | nil => exact h
  | cons e rest ih =>
    simp only [List.foldl_cons]
    exact ih _ (getRegionColor_keeps rc e.1 k c h)

theorem refreshFold_self (regions : List (String × List String)) (rc : List (String × String))
    (h : ∀ e ∈ regions, e.1 ∈ mapKeys rc) :
    regions.foldl (fun rc e => (getRegionColor rc e.1).2) rc = rc := by
  induction regions with
  | nil => rfl
  | cons e rest ih =>
    simp only [List.foldl_cons]
    rw [getRegionColor_of_mem rc e.1 (h e (List.mem_cons_self _ _))]
    exact ih (fun d hd => h d (List.mem_cons_of_mem _ hd))

/-! ## Creating a region -/

/-- C4: `Create` on the trimmed input name. An empty name or a name that is already a key of
the Region Store (string equality, so case-sensitive) leaves the whole state unchanged and
raises an alert. Otherwise the Region Store is the old one with the new name mapped to the
empty set appended, every other region keeps its code set, no alert is raised, and the new name
has a colour in the region-colour map. -/
theorem btnCreateRegion_spec (input : String) (s : State) :
    ((jsTrim input = "" ∨ jsTrim input ∈ mapKeys s.regions) →
      (btnCreateRegion input s).1 = s ∧ ∃ msg, (btnCreateRegion input s).2 = some msg) ∧
    (jsTrim input ≠ "" → jsTrim input ∉ mapKeys s.regions →
      (btnCreateRegion input s).1.regions = s.regions ++ [(jsTrim input, [])] ∧
      mapGet (btnCreateRegion input s).1.regions (jsTrim input) = some [] ∧
      (∀ k, k ≠ jsTrim input →
        mapGet (btnCreateRegion input s).1.regions k = mapGet s.regions k) ∧
      (∃ c, mapGet (btnCreateRegion input s).1.regionColors (jsTrim input) = some c) ∧
      (btnCreateRegion input s).2 = none) := by
  constructor
  · intro h
    unfold btnCreateRegion
    simp only []
    by_cases he : jsTrim input = ""
    · simp [he]
    · have hm : mapHas s.regions (jsTrim input) = true := by
        rw [mapHas_iff]
        rcases h with h | h
        · exact absurd h he
        · exact h
      simp [he, hm]
  · intro hne hnm
    have hm : mapHas s.regions (jsTrim input) = false := (mapHas_eq_false_iff _ _).2 hnm
    have hreg : (btnCreateRegion input s).1.regions = s.regions ++ [(jsTrim input, [])] := by
      unfold btnCreateRegion
      simp only [beq_iff_eq, hne, if_false, hm, Bool.false_eq_true]
      simp only [refreshRegionSelect, refreshRegionList]
      exact mapSet_of_not_mem _ _ _ hnm
    refine ⟨hreg, ?_, ?_, ?_, ?_⟩
    · rw [hreg, mapGet_append_of_not_mem _ _ _ hnm, mapGet_cons]
      simp
    · intro k hk
      rw [hreg]
      by_cases hkm : k ∈ mapKeys s.regions
      · exact mapGet_append_of_mem _ _ k hkm
      · rw [mapGet_append_of_not_mem _ _ k hkm, mapGet_cons, if_neg (fun h => hk h.symm),
          (mapGet_eq_none_iff _ k).2 hkm]
        rfl
    · unfold btnCreateRegion
      simp only [beq_iff_eq, hne, if_false, hm, Bool.false_eq_true]
      simp only [refreshRegionSelect, refreshRegionList]
      obtain ⟨c, hc1, _⟩ := getRegionColor_has s.regionColors (jsTrim input)
      refine ⟨c, ?_⟩
      apply refreshFold_keeps
      rw [hc1]
      exact mapGet_mapSet_self _ _ _
    · unfold btnCreateRegion
      simp only [beq_iff_eq, hne, if_false, hm, Bool.false_eq_true]

/-! ## Click selection -/

theorem clickLoop_none (inside : Nat → Bool) (s : State) (l : List FeatureRec)
    (h : ∀ r ∈ l, inside r.feature = false) : clickLoop inside s l = s := by
  induction l with
  | nil => rfl
  | cons r rest ih =>
    simp only [clickLoop, h r (List.mem_cons_self _ _), Bool.false_eq_true, if_false]
    exact ih (fun d hd => h d (List.mem_cons_of_mem _ hd))

theorem clickLoop_first (inside : Nat → Bool) (s : State) (l : List FeatureRec) (i : Nat)
    (rec : FeatureRec) (hi : l[i]? = some rec) (hin : inside rec.feature = true)
    (hlt : ∀ j : Nat, j < i → ∀ r : FeatureRec, l[j]? = some r → inside r.feature = false) :
    clickLoop inside s l = toggleSelected s rec := by
  induction l generalizing i with
  | nil => simp at hi
  | cons d rest ih =>
    cases i with
    | zero =>
      simp only [List.getElem?_cons_zero, Option.some.injEq] at hi
      subst hi
      simp only [clickLoop, hin, if_true]
    | succ i =>
      simp only [clickLoop, hlt 0 (Nat.succ_pos i) d (by simp), Bool.false_eq_true, if_false]
      apply ih i (by simpa using hi)
      intro j hj e he
      exact hlt (j + 1) (Nat.succ_lt_succ hj) e (by simpa using he)

theorem toggleSelected_frame (s : State) (rec : FeatureRec) :
    (toggleSelected s rec).featureIndex = s.featureIndex ∧
    (toggleSelected s rec).regions = s.regions := by
  unfold toggleSelected
  simp only []
  obtain ⟨_, h2, h3⟩ := restyle_frame
    (if setHas s.selectedPlz rec.plz = true then
      { s with selectedPlz := setDelete s.selectedPlz rec.plz }
    else { s with selectedPlz := setAdd s.selectedPlz rec.plz }) rec.plz
  rw [h2, h3]
  split <;> exact ⟨rfl, rfl⟩

theorem mem_toggleSelected (s : State) (rec : FeatureRec) (c : String) :
    c ∈ (toggleSelected s rec).selectedPlz ↔
      (c = rec.plz ∧ rec.plz ∉ s.selectedPlz) ∨ (c ≠ rec.plz ∧ c ∈ s.selectedPlz) := by
  unfold toggleSelected
  simp only []
  rw [(restyle_frame _ rec.plz).1]
  by_cases h : rec.plz ∈ s.selectedPlz
  · rw [if_pos ((setHas_iff _ _).2 h)]
    simp only [mem_setDelete]
    constructor
    · rintro ⟨h1, h2⟩; exact Or.inr ⟨h2, h1⟩
    · rintro (⟨_, h2⟩ | ⟨h1, h2⟩)
      · exact absurd h h2
      · exact ⟨h2, h1⟩
  · rw [if_neg (fun hh => h ((setHas_iff _ _).1 hh))]
    simp only [mem_setAdd]
    constructor
    · rintro (h1 | h1)
      · refine Or.inr ⟨?_, h1⟩
        rintro rfl
        exact h h1
      · exact Or.inl ⟨h1, h⟩
    · rintro (⟨h1, _⟩ | ⟨_, h2⟩)
      · exact Or.inr h1
      · exact Or.inl h2

/-- The list has an element on which `inside` holds, hence a first one. -/
theorem exists_first_hit (inside : Nat → Bool) (l : List FeatureRec)
    (h : ¬ ∀ r ∈ l, inside r.feature = false) :
    ∃ (i : Nat) (rec : FeatureRec), l[i]? = some rec ∧ inside rec.feature = true ∧
      ∀ j : Nat, j < i → ∀ r : FeatureRec, l[j]? = some r → inside r.feature = false := by
  have hf := find?_first (fun r : FeatureRec => inside r.feature) l
  cases hfind : l.find? (fun r : FeatureRec => inside r.feature) with
  | none => exact absurd (hf.2 hfind) h
  | some rec =>
    obtain ⟨i, hi, hp, hlt⟩ := hf.1 rec hfind
    exact ⟨i, rec, hi, hp, hlt⟩

/-- C8: handling the same click twice restores the membership of every code in the
Selection Set; one click changes the membership of one code only, the code of the first
record of the Feature Index, in index order, whose polygon contains the point, and it changes
nothing when no polygon contains the point. -/
theorem onMapClick_spec (inside : Nat → Bool) (s : State) :
    (∀ c, c ∈ (onMapClick inside (onMapClick inside s)).selectedPlz ↔ c ∈ s.selectedPlz) ∧
    (∀ (i : Nat) (rec : FeatureRec), s.featureIndex[i]? = some rec → inside rec.feature = true →
      (∀ j : Nat, j < i → ∀ r : FeatureRec, s.featureIndex[j]? = some r →
        inside r.feature = false) →
      (∀ c, c ≠ rec.plz → (c ∈ (onMapClick inside s).selectedPlz ↔ c ∈ s.selectedPlz)) ∧
      (rec.plz ∈ (onMapClick inside s).selectedPlz ↔ rec.plz ∉ s.selectedPlz)) ∧
    ((∀ r ∈ s.featureIndex, inside r.feature = false) → onMapClick inside s = s) := by
  have hone : ∀ (i : Nat) (rec : FeatureRec), s.featureIndex[i]? = some rec →
      inside rec.feature = true →
      (∀ j : Nat, j < i → ∀ r : FeatureRec, s.featureIndex[j]? = some r →
        inside r.feature = false) →
      onMapClick inside s = toggleSelected s rec ∧
      onMapClick inside (toggleSelected s rec) = toggleSelected (toggleSelected s rec) rec := by
    intro i rec hi hin hlt
    constructor
    · exact clickLoop_first inside s s.featureIndex i rec hi hin hlt
    · unfold onMapClick
      rw [(toggleSelected_frame s rec).1]
      exact clickLoop_first inside _ s.featureIndex i rec hi hin hlt
  refine ⟨?_, ?_, ?_⟩
  · intro c
    by_cases hall : ∀ r ∈ s.featureIndex, inside r.feature = false
    · have h1 : onMapClick inside s = s := clickLoop_none inside s _ hall
      rw [h1, h1]
    · obtain ⟨i, rec, hi, hin, hlt⟩ := exists_first_hit inside s.featureIndex hall
      obtain ⟨h1, h2⟩ := hone i rec hi hin hlt
      rw [h1, h2, mem_toggleSelected, mem_toggleSelected]
      by_cases hc : c = rec.plz
      · subst hc
        by_cases hm : rec.plz ∈ s.selectedPlz <;> simp [hm]
      · simp [hc, mem_toggleSelected]
  · intro i rec hi hin hlt
    obtain ⟨h1, _⟩ := hone i rec hi hin hlt
    rw [h1]
    constructor
    · intro c hc
      rw [mem_toggleSelected]
      simp [hc]
    · rw [mem_toggleSelected]
      simp
  · intro hall
    exact clickLoop_none inside s _ hall

/-! ## Adding the selection to a region and removing it again -/

theorem foldl_setDelete (S R : List String) :
    S.foldl setDelete R = R.filter (fun c => !S.contains c) := by
  induction S generalizing R with
  | nil => simp
  | cons p S ih =>
    simp only [List.foldl_cons]
    rw [ih, setDelete, List.filter_filter]
    apply List.filter_congr
    intro c _
    by_cases h1 : c = p
    · simp [h1]
    · by_cases h2 : c ∈ S <;> simp [h1, h2]

theorem foldl_setAdd (S R : List String) :
    ∃ X, S.foldl setAdd R = R ++ X ∧ ∀ c ∈ X, c ∈ S := by
  induction S generalizing R with
  | nil => exact ⟨[], by simp, by simp⟩
  | cons p S ih =>
    simp only [List.foldl_cons]
    obtain ⟨X, hX, hmem⟩ := ih (setAdd R p)
    by_cases h : setHas R p = true
    · have hp : setAdd R p = R := by rw [setAdd, if_pos h]
      rw [hp] at hX ⊢
      exact ⟨X, hX, fun c hc => List.mem_cons_of_mem _ (hmem c hc)⟩
    · have hp : setAdd R p = R ++ [p] := by rw [setAdd, if_neg h]
      rw [hp] at hX ⊢
      refine ⟨p :: X, by rw [hX]; simp, ?_⟩
      intro c hc
      rcases List.mem_cons.1 hc with rfl | hc
      · exact List.mem_cons_self _ _
      · exact List.mem_cons_of_mem _ (hmem c hc)

theorem btnAddSelectedToRegion_regions (n : String) (R : List String) (s : State)
    (hn : n ≠ "") (hR : mapGet s.regions n = some R) :
    (btnAddSelectedToRegion n s).regions = mapSet s.regions n (s.selectedPlz.foldl setAdd R) ∧
    (btnAddSelectedToRegion n s).selectedPlz = s.selectedPlz := by
  unfold btnAddSelectedToRegion
  simp only [beq_iff_eq, hn, if_false, hR]
  obtain ⟨h1, h2, _⟩ := restyleAll_frame (refreshRegionSelect
    { s with regions := mapSet s.regions n (s.selectedPlz.foldl setAdd R) })
  exact ⟨h2, h1⟩

theorem btnRemovePlzFromRegion_regions (n : String) (R : List String) (s : State)
    (hn : n ≠ "") (hR : mapGet s.regions n = some R) :
    (btnRemovePlzFromRegion n s).regions =
      mapSet s.regions n (s.selectedPlz.foldl setDelete R) ∧
    (btnRemovePlzFromRegion n s).selectedPlz = s.selectedPlz := by
  unfold btnRemovePlzFromRegion
  simp only [beq_iff_eq, hn, if_false, hR]
  obtain ⟨h1, h2, _⟩ := restyleAll_frame (refreshRegionSelect
    { s with regions := mapSet s.regions n (s.selectedPlz.foldl setDelete R) })
  exact ⟨h2, h1⟩

/-- C2, amended: for an existing region `n` with code set `R` and Selection Set `S`, adding
the selection and then removing it leaves region `n` with the codes of `R` that are not in
`S`, in their old order; so `R` is restored when no code of `S` was in `R` before the add. -/
theorem add_then_remove_selection (n : String) (R : List String) (s : State)
    (hn : n ≠ "") (hR : mapGet s.regions n = some R) :
    mapGet (btnRemovePlzFromRegion n (btnAddSelectedToRegion n s)).regions n =
      some (R.filter (fun c => !s.selectedPlz.contains c)) ∧
    ((∀ c ∈ R, c ∉ s.selectedPlz) →
      mapGet (btnRemovePlzFromRegion n (btnAddSelectedToRegion n s)).regions n = some R) := by
  obtain ⟨ha, hsel⟩ := btnAddSelectedToRegion_regions n R s hn hR
  have hget : mapGet (btnAddSelectedToRegion n s).regions n =
      some (s.selectedPlz.foldl setAdd R) := by
    rw [ha]; exact mapGet_mapSet_self _ _ _
  obtain ⟨hr, _⟩ := btnRemovePlzFromRegion_regions n _ (btnAddSelectedToRegion n s) hn hget
  have hmain : mapGet (btnRemovePlzFromRegion n (btnAddSelectedToRegion n s)).regions n =
      some (R.filter (fun c => !s.selectedPlz.contains c)) := by
    rw [hr, mapGet_mapSet_self, hsel, foldl_setDelete]
    obtain ⟨X, hX, hmem⟩ := foldl_setAdd s.selectedPlz R
    rw [hX, List.filter_append]
    have : X.filter (fun c => !s.selectedPlz.contains c) = [] := by
      rw [List.filter_eq_nil_iff]
      intro c hc
      simp [hmem c hc]
    rw [this, List.append_nil]
  refine ⟨hmain, ?_⟩
  intro hdisj
  rw [hmain]
  congr 1
  rw [List.filter_eq_self]
  intro c hc
  simp [hdisj c hc]

/-! ## Export -/

theorem jsSort_sorted (arr : List String) : (jsSort arr).Sorted jsStringLe :=
  List.sorted_insertionSort jsStringLe arr

theorem jsSort_perm (arr : List String) : (jsSort arr).Perm arr :=
  List.perm_insertionSort jsStringLe arr

theorem mapGet_objAssign_self {β : Type} (data : List (String × β)) (name : String) (v : β)
    (h : name ≠ "__proto__") : mapGet (objAssign data name v) name = some v := by
  unfold objAssign
  simp only [beq_iff_eq, h, if_false]
  exact mapGet_mapSet_self data name v

theorem mapGet_objAssign_ne {β : Type} (data : List (String × β)) (name k : String) (v : β)
    (h : k ≠ name) : mapGet (objAssign data name v) k = mapGet data k := by
  unfold objAssign
  split
  · rfl
  · exact mapGet_mapSet_ne data name k v h

theorem mapGet_objAssign_proto {β : Type} (data : List (String × β)) (name : String) (v : β) :
    mapGet (objAssign data name v) "__proto__" = mapGet data "__proto__" := by
  by_cases h : name = "__proto__"
  · unfold objAssign
    simp [h]
  · exact mapGet_objAssign_ne data name _ v (fun hk => h hk.symm)

theorem exportFold_of_not_mem (regions : List (String × List String))
    (data : List (String × List String)) (k : String) (h : k ∉ mapKeys regions) :
    mapGet (regions.foldl (fun data e => objAssign data e.1 (jsSort e.2)) data) k =
      mapGet data k := by
  induction regions generalizing data with
  | nil => rfl
  | cons e rest ih =>
    simp only [mapKeys, List.map_cons, List.mem_cons, not_or] at h
    simp only [List.foldl_cons]
    rw [ih _ h.2]
    exact mapGet_objAssign_ne data e.1 k _ h.1

theorem exportFold_proto (regions : List (String × List String))
    (data : List (String × List String)) :
    mapGet (regions.foldl (fun data e => objAssign data e.1 (jsSort e.2)) data) "__proto__" =
      mapGet data "__proto__" := by
  induction regions generalizing data with
  | nil => rfl
  | cons e rest ih =>
    simp only [List.foldl_cons]
    rw [ih]
    exact mapGet_objAssign_proto data e.1 _

theorem exportFold_of_mem (regions : List (String × List String))
    (data : List (String × List String)) (hnd : (mapKeys regions).Nodup)
    (name : String) (set : List String) (hmem : (name, set) ∈ regions)
    (hname : name ≠ "__proto__") :
    mapGet (regions.foldl (fun data e => objAssign data e.1 (jsSort e.2)) data) name =
      some (jsSort set) := by
  induction regions generalizing data with
  | nil => simp at hmem
  | cons e rest ih =>
    simp only [mapKeys, List.map_cons, List.nodup_cons] at hnd
    simp only [List.foldl_cons]
    rcases List.mem_cons.1 hmem with rfl | hmem
    · rw [exportFold_of_not_mem rest _ _ hnd.1]
      exact mapGet_objAssign_self data _ _ hname
    · exact ih _ hnd.2 hmem

/-- Export-JSON on every region whose name is not `__proto__`: the `regions` object maps the
name to the codes of the region in ascending order of UTF-16 code units, each code once, and
the handler leaves the state as it is. -/
theorem btnExportJson_sorted (created : String) (s : State)
    (hnd : (mapKeys s.regions).Nodup) :
    (∀ name set, (name, set) ∈ s.regions → name ≠ "__proto__" →
      ∃ l, mapGet (exportData s.regions) name = some l ∧ l.Sorted jsStringLe ∧ l.Perm set) ∧
    (btnExportJson created s).1 = s := by
  refine ⟨?_, rfl⟩
  intro name set hmem hname
  exact ⟨jsSort set, exportFold_of_mem s.regions [] hnd name set hmem hname,
    jsSort_sorted set, jsSort_perm set⟩

/-- C7 at a region named `__proto__`: the assignment `data[name] = ...` replaces the
prototype of `data` and the `regions` object of the export has no entry for the region,
whatever its codes. -/
theorem btnExportJson_proto_dropped (set : List String) (rest : List (String × List String)) :
    mapGet (exportData (("__proto__", set) :: rest)) "__proto__" = none ∧
    exportData [("__proto__", ["10117", "10115"])] = [] := by
  constructor
  · unfold exportData
    rw [exportFold_proto]
    rfl
  · rfl

/-! ## Saving to local storage and loading again -/

theorem asStrings_map_str (l : List String) : asStrings (l.map JVal.str) = some l := by
  induction l with
  | nil => rfl
  | cons a l ih => simp [asStrings, ih]

theorem foldl_setAdd_nodup (l acc : List String) (h : (acc ++ l).Nodup) :
    l.foldl setAdd acc = acc ++ l := by
  induction l generalizing acc with
  | nil => simp
  | cons a l ih =>
    simp only [List.foldl_cons]
    have ha : a ∉ acc := by
      intro hmem
      have := List.nodup_append.1 h
      exact this.2.2 hmem (List.mem_cons_self _ _)
    have hadd : setAdd acc a = acc ++ [a] := by
      rw [setAdd, if_neg]
      rw [setHas_iff]; exact ha
    rw [hadd, ih (acc ++ [a]) (by simpa using h)]
    simp

theorem setFromArray_nodup (l : List String) (h : l.Nodup) : setFromArray l = l := by
  unfold setFromArray
  rw [foldl_setAdd_nodup l [] (by simpa using h)]
  rfl

theorem loadRegions_saved (regions acc : List (String × List String))
    (hnd : (mapKeys (acc ++ regions)).Nodup) (hsets : ∀ e ∈ regions, e.2.Nodup) :
    loadRegions (regions.map (fun e => JVal.arr [.str e.1, .arr (e.2.map JVal.str)])) acc =
      .done (acc ++ regions) := by
  induction regions generalizing acc with
  | nil => simp [loadRegions]
  | cons e rest ih =>
    have hk : e.1 ∉ mapKeys acc := by
      intro hmem
      simp only [mapKeys, List.map_append, List.map_cons] at hnd
      have := List.nodup_append.1 hnd
      exact this.2.2 hmem (List.mem_cons_self _ _)
    simp only [List.map_cons, loadRegions, jsIterate, List.get?_cons_succ, List.get?_cons_zero,
      newSet, asStrings_map_str, setFromArray_nodup e.2 (hsets e (List.mem_cons_self _ _))]
    rw [mapSet_of_not_mem acc e.1 e.2 hk, ih (acc ++ [e])]
    · simp
    · simpa using hnd
    · exact fun d hd => hsets d (List.mem_cons_of_mem _ hd)

theorem loadRegionColors_saved (rc acc : List (String × String))
    (hnd : (mapKeys (acc ++ rc)).Nodup) :
    loadRegionColors (rc.map (fun e => JVal.arr [.str e.1, .str e.2])) acc =
      .done (acc ++ rc) := by
  induction rc generalizing acc with
  | nil => simp [loadRegionColors]
  | cons e rest ih =>
    have hk : e.1 ∉ mapKeys acc := by
      intro hmem
      simp only [mapKeys, List.map_append, List.map_cons] at hnd
      have := List.nodup_append.1 hnd
      exact this.2.2 hmem (List.mem_cons_self _ _)
    simp only [List.map_cons, loadRegionColors, jsIterate, List.get?_cons_succ,
      List.get?_cons_zero]
    rw [mapSet_of_not_mem acc e.1 e.2 hk, ih (acc ++ [e])]
    · simp
    · simpa using hnd

theorem styleForLoop_colors (p : String) (rc : List (String × String))
    (regions : List (String × List String)) (h : ∀ e ∈ regions, e.1 ∈ mapKeys rc) :
    ∀ st rc2, styleForLoop p rc regions = some (st, rc2) → rc2 = rc := by
  induction regions with
  | nil => intro st rc2 hh; simp [styleForLoop] at hh
  | cons e rest ih =>
    obtain ⟨region, set⟩ := e
    intro st rc2 hh
    by_cases hp : setHas set p = true
    · simp only [styleForLoop, hp, if_true, Option.some.injEq, Prod.mk.injEq] at hh
      rw [← hh.2, getRegionColor_of_mem rc region (h _ (List.mem_cons_self _ _))]
    · simp only [styleForLoop, hp, if_false] at hh
      exact ih (fun d hd => h d (List.mem_cons_of_mem _ hd)) st rc2 hh

theorem styleFor_state (s : State) (p : String)
    (h : ∀ e ∈ s.regions, e.1 ∈ mapKeys s.regionColors) : (styleFor s p).2 = s := by
  unfold styleFor
  split
  · rename_i st rc2 hh
    rw [styleForLoop_colors p s.regionColors s.regions h st rc2 hh]
  · rfl

theorem restyle_state (s : State) (p : String)
    (h : ∀ e ∈ s.regions, e.1 ∈ mapKeys s.regionColors) : restyle s p = s := by
  unfold restyle
  split
  · exact styleFor_state s p h
  · rfl

theorem restyleFold_state (l : List FeatureRec) (s : State)
    (h : ∀ e ∈ s.regions, e.1 ∈ mapKeys s.regionColors) :
    l.foldl (fun st f => restyle st f.plz) s = s := by
  induction l with
  | nil => rfl
  | cons f l ih =>
    simp only [List.foldl_cons]
    rw [restyle_state s f.plz h]
    exact ih

theorem restyleAll_state (s : State)
    (h : ∀ e ∈ s.regions, e.1 ∈ mapKeys s.regionColors) : restyleAll s = s :=
  restyleFold_state s.featureIndex s h

theorem refreshRegionSelect_state (s : State)
    (h : ∀ e ∈ s.regions, e.1 ∈ mapKeys s.regionColors) : refreshRegionSelect s = s := by
  unfold refreshRegionSelect refreshRegionList
  rw [refreshFold_self s.regions s.regionColors h]

/-- C1, amended: when every region name has a colour, Save-to-local followed by
Load-from-local puts the saved Region Store and the saved region-colour map in place of the
current ones, with the same names, the same codes and the same colours in the same order, and
raises no alert; with no mutation in between the state after the load is the state before the
save. -/
theorem save_then_load (s t : State)
    (hr : (mapKeys s.regions).Nodup) (hsets : ∀ e ∈ s.regions, e.2.Nodup)
    (hc : (mapKeys s.regionColors).Nodup)
    (hcol : ∀ e ∈ s.regions, e.1 ∈ mapKeys s.regionColors) :
    btnLoadLocal (btnSaveLocal s).1 t =
      some ({ t with regions := s.regions, regionColors := s.regionColors }, none) ∧
    btnLoadLocal (btnSaveLocal s).1 s = some (s, none) := by
  have key : ∀ t : State, btnLoadLocal (btnSaveLocal s).1 t =
      some ({ t with regions := s.regions, regionColors := s.regionColors }, none) := by
    intro t
    have h1 := loadRegions_saved s.regions [] (by simpa using hr) hsets
    have h2 := loadRegionColors_saved s.regionColors [] (by simpa using hc)
    simp only [List.nil_append] at h1 h2
    simp only [btnSaveLocal, btnLoadLocal, jsIterateProp, mapGet_cons, if_true, jsIterate, h1,
      h2, (by decide : ¬ ("regions" = "regionColors")), if_false]
    rw [refreshRegionSelect_state
      { selectedPlz := t.selectedPlz, regions := s.regions, regionColors := s.regionColors,
        featureIndex := t.featureIndex } hcol,
      restyleAll_state
      { selectedPlz := t.selectedPlz, regions := s.regions, regionColors := s.regionColors,
        featureIndex := t.featureIndex } hcol]
  exact ⟨key t, key s⟩

theorem loadRegions_throws (items : List JVal) (acc : List (String × List String)) :
    (∀ r, loadRegions items acc = .done r → loadRegionsThrows items = false) ∧
    (∀ r, loadRegions items acc = .thrown r → loadRegionsThrows items = true) := by
  induction items generalizing acc with
  | nil =>
    constructor
    · intro r _; trivial
    · intro r h; simp [loadRegions] at h
  | cons el rest ih =>
    cases hit : jsIterate el with
    | none =>
      simp only [loadRegions, loadRegionsThrows, hit]
      constructor
      · intro r h; cases h
      · intro r _; trivial
    | some parts =>
      simp only [loadRegions, loadRegionsThrows, hit]
      cases harr : parts.get? 1 with
      | none =>
        simp only [newSet, newSetThrows, Bool.false_eq_true, if_false]
        cases hname : parts.get? 0 with
        | none => constructor <;> intro r h <;> cases h
        | some nm =>
          cases nm with
          | str name => exact ih _
          | null => constructor <;> intro r h <;> cases h
          | bool b => constructor <;> intro r h <;> cases h
          | num k => constructor <;> intro r h <;> cases h
          | arr l => constructor <;> intro r h <;> cases h
          | obj l => constructor <;> intro r h <;> cases h
      | some v =>
        cases hv : jsIterate v with
        | none =>
          cases v with
          | null =>
            simp only [newSet, newSetThrows, Bool.false_eq_true, if_false]
            cases hname : parts.get? 0 with
            | none => constructor <;> intro r h <;> cases h
            | some nm =>
              cases nm with
              | str name => exact ih _
              | null => constructor <;> intro r h <;> cases h
              | bool b => constructor <;> intro r h <;> cases h
              | num k => constructor <;> intro r h <;> cases h
              | arr l => constructor <;> intro r h <;> cases h
              | obj l => constructor <;> intro r h <;> cases h
          | bool b =>
            simp only [newSet, newSetThrows, jsIterate, Option.isNone_none, if_true]
            constructor
            · intro r h; cases h
            · intro r _; trivial
          | num k =>
            simp only [newSet, newSetThrows, jsIterate, Option.isNone_none, if_true]
            constructor
            · intro r h; cases h
            · intro r _; trivial
          | str x => simp [jsIterate] at hv
          | arr l => simp [jsIterate] at hv
          | obj l =>
            simp only [newSet, newSetThrows, jsIterate, Option.isNone_none, if_true]
            constructor
            · intro r h; cases h
            · intro r _; trivial
        | some its =>
          have hthrow : newSetThrows (some v) = false := by
            cases v with
            | null => rfl
            | bool b => simp [jsIterate] at hv
            | num k => simp [jsIterate] at hv
            | str x => rfl
            | arr l => rfl
            | obj l => simp [jsIterate] at hv
          have hset : newSet (some v) =
              match asStrings its with
              | some codes => .value (setFromArray codes)
              | none => .untyped := by
            cases v with
            | null => simp [jsIterate] at hv
            | bool b => simp [jsIterate] at hv
            | num k => simp [jsIterate] at hv
            | str x => simp only [newSet]; rw [hv]
            | arr l => simp only [newSet]; rw [hv]
            | obj l => simp [jsIterate] at hv
          rw [hthrow, hset]
          simp only [Bool.false_eq_true, if_false]
          cases hcodes : asStrings its with
          | none => constructor <;> intro r h <;> cases h
          | some codes =>
            simp only []
            cases hname : parts.get? 0 with
            | none => constructor <;> intro r h <;> cases h
            | some nm =>
              cases nm with
              | str name => exact ih _
              | null => constructor <;> intro r h <;> cases h
              | bool b => constructor <;> intro r h <;> cases h
              | num k => constructor <;> intro r h <;> cases h
              | arr l => constructor <;> intro r h <;> cases h
              | obj l => constructor <;> intro r h <;> cases h

theorem loadRegionColors_throws (items : List JVal) (acc : List (String × String)) :
    (∀ r, loadRegionColors items acc = .done r → loadRegionColorsThrows items = false) ∧
    (∀ r, loadRegionColors items acc = .thrown r → loadRegionColorsThrows items = true) := by
  induction items generalizing acc with
  | nil =>
    constructor
    · intro r _; trivial
    · intro r h; simp [loadRegionColors] at h
  | cons el rest ih =>
    cases hit : jsIterate el with
    | none =>
      simp only [loadRegionColors, loadRegionColorsThrows, hit]
      constructor
      · intro r h; cases h
      · intro r _; trivial
    | some parts =>
      simp only [loadRegionColors, loadRegionColorsThrows, hit]
      split
      · exact ih _
      · constructor <;> intro r h <;> cases h

/-- The alert of the typed model of the load handler is the alert of `btnLoadLocalAlert`. -/
theorem btnLoadLocal_alert (raw : Option StoredText) (s s1 : State) (a : Option String)
    (h : btnLoadLocal raw s = some (s1, a)) : btnLoadLocalAlert raw = a := by
  cases raw with
  | none => simp only [btnLoadLocal] at h; cases h; rfl
  | some text =>
    cases text with
    | empty => simp only [btnLoadLocal] at h; cases h; rfl
    | notJson => simp only [btnLoadLocal] at h; cases h; rfl
    | json obj =>
      simp only [btnLoadLocal, btnLoadLocalAlert] at h ⊢
      cases hr : jsIterateProp obj "regions" with
      | none => rw [hr] at h; cases h; rfl
      | some items =>
        rw [hr] at h
        simp only [] at h ⊢
        cases hl : loadRegions items [] with
        | untyped => rw [hl] at h; cases h
        | thrown regions =>
          rw [hl] at h
          rw [(loadRegions_throws items []).2 regions hl]
          cases h; rfl
        | done regions =>
          rw [hl] at h
          rw [(loadRegions_throws items []).1 regions hl]
          simp only [Bool.false_eq_true, if_false] at h ⊢
          cases hc : jsIterateProp obj "regionColors" with
          | none => rw [hc] at h; cases h; rfl
          | some colorItems =>
            rw [hc] at h
            simp only [] at h ⊢
            cases hlc : loadRegionColors colorItems [] with
            | untyped => rw [hlc] at h; cases h
            | thrown rc =>
              rw [hlc] at h
              rw [(loadRegionColors_throws colorItems []).2 rc hlc]
              cases h; rfl
            | done rc =>
              rw [hlc] at h
              rw [(loadRegionColors_throws colorItems []).1 rc hlc]
              cases h; rfl

/-- C3, amended: when the stored value is absent, empty or not valid JSON, Load-from-local
raises an alert and leaves the whole state as it was; when it is valid JSON whose `regions`
or `regionColors` field is missing or cannot be iterated, an alert is raised as well,
whatever else the stored value holds. -/
theorem btnLoadLocal_failure (s : State) :
    btnLoadLocal none s = some (s, some "Keine gespeicherten Daten gefunden.") ∧
    btnLoadLocal (some .empty) s = some (s, some "Keine gespeicherten Daten gefunden.") ∧
    btnLoadLocal (some .notJson) s = some (s, some "Fehler beim Laden.") ∧
    (∀ obj, jsIterateProp obj "regions" = none →
      ∃ s1, btnLoadLocal (some (.json obj)) s = some (s1, some "Fehler beim Laden.")) ∧
    (∀ obj, (jsIterateProp obj "regions" = none ∨ jsIterateProp obj "regionColors" = none) →
      btnLoadLocalAlert (some (.json obj)) = some "Fehler beim Laden.") ∧
    (∀ raw s1 a, btnLoadLocal raw s = some (s1, a) → btnLoadLocalAlert raw = a) := by
  refine ⟨rfl, rfl, rfl, ?_, ?_, ?_⟩
  · intro obj h
    refine ⟨{ s with regions := [] }, ?_⟩
    simp only [btnLoadLocal, h]
  · intro obj h
    simp only [btnLoadLocalAlert]
    cases hr : jsIterateProp obj "regions" with
    | none => rfl
    | some items =>
      simp only []
      split
      · rfl
      · rcases h with h | h
        · rw [hr] at h; cases h
        · rw [h]
  · intro raw s1 a h
    exact btnLoadLocal_alert raw s s1 a h

/-! ## The invariant over reachable states -/

theorem Inv.colored {s : State} (h : Inv s) : ∀ e ∈ s.regions, e.1 ∈ mapKeys s.regionColors := by
  intro e he
  rw [← h.1]
  exact List.mem_map_of_mem _ he

theorem Inv.of_same {s t : State} (h : Inv s) (hr : mapKeys t.regions = mapKeys s.regions)
    (hc : t.regionColors = s.regionColors) : Inv t := by
  unfold Inv
  rw [hr, hc]
  exact h

theorem mapSet_append_self {β : Type} (m : List (String × β)) (k : String) (v : β)
    (h : k ∉ mapKeys m) : mapSet (m ++ [(k, v)]) k v = m ++ [(k, v)] := by
  have hhas : mapHas (m ++ [(k, v)]) k = true := by
    rw [mapHas_iff]; simp [mapKeys]
  unfold mapSet
  rw [if_pos hhas, List.map_append]
  congr 1
  · conv_rhs => rw [← List.map_id m]
    apply List.map_congr_left
    intro e he
    have : ¬ e.1 = k := fun hk => h (hk ▸ List.mem_map_of_mem _ he)
    simp [this]
  · simp

theorem palette_find_ne (used : List String) (a : String) (h : a ∈ used)
    (heq : a = (palette.find? (fun c => !used.contains c)).getD fallbackColor) :
    a = fallbackColor := by
  cases hf : palette.find? (fun c => !used.contains c) with
  | none => rw [hf] at heq; exact heq
  | some c =>
    rw [hf] at heq
    have := List.find?_some hf
    simp only [Bool.not_eq_true', List.contains_eq_any_beq, List.any_eq_false, beq_iff_eq] at this
    exact absurd heq.symm (by
      intro hca
      exact this a h (hca ▸ rfl))

theorem btnCreateRegion_success (input : String) (s : State) (hinv : Inv s)
    (hne : jsTrim input ≠ "") (hnm : jsTrim input ∉ mapKeys s.regions) :
    (btnCreateRegion input s).1 =
      { s with
        regions := s.regions ++ [(jsTrim input, [])],
        regionColors := s.regionColors ++ [(jsTrim input,
          (palette.find? (fun c => !(mapValues s.regionColors).contains c)).getD
            fallbackColor)] } := by
  have hm : mapHas s.regions (jsTrim input) = false := (mapHas_eq_false_iff _ _).2 hnm
  have hnc : jsTrim input ∉ mapKeys s.regionColors := by rw [← hinv.1]; exact hnm
  unfold btnCreateRegion
  simp only [beq_iff_eq, hne, if_false, hm, Bool.false_eq_true]
  rw [getRegionColor_of_not_mem s.regionColors _ hnc]
  simp only []
  rw [mapSet_append_self _ _ _ hnc, mapSet_of_not_mem _ _ _ hnm]
  apply refreshRegionSelect_state
  intro e he
  simp only [mapKeys, List.map_append, List.map_cons, List.map_nil, List.mem_append,
    List.mem_singleton] at he ⊢
  rcases he with he | he
  · left
    have := hinv.colored e he
    simpa [mapKeys] using this
  · right
    rw [he]

theorem btnCreateRegion_failure (input : String) (s : State)
    (h : jsTrim input = "" ∨ jsTrim input ∈ mapKeys s.regions) :
    (btnCreateRegion input s).1 = s ∧ (btnCreateRegion input s).2 ≠ none := by
  unfold btnCreateRegion
  simp only []
  by_cases he : jsTrim input = ""
  · simp [he]
  · have hm : mapHas s.regions (jsTrim input) = true := by
      rw [mapHas_iff]
      rcases h with h | h
      · exact absurd h he
      · exact h
    simp [he, hm]

theorem Inv.create (input : String) {s : State} (hinv : Inv s) :
    Inv (btnCreateRegion input s).1 := by
  by_cases h : jsTrim input = "" ∨ jsTrim input ∈ mapKeys s.regions
  · rw [(btnCreateRegion_failure input s h).1]; exact hinv
  · simp only [not_or] at h
    rw [btnCreateRegion_success input s hinv h.1 h.2]
    have hnc : jsTrim input ∉ mapKeys s.regionColors := by rw [← hinv.1]; exact h.2
    refine ⟨?_, ?_, ?_⟩
    · simp only [mapKeys, List.map_append, List.map_cons, List.map_nil]
      have := hinv.1
      simp only [mapKeys] at this
      rw [this]
    · simp only [mapKeys, List.map_append, List.map_cons, List.map_nil]
      apply List.Nodup.append hinv.2.1 (List.nodup_singleton _)
      intro a ha ha2
      rw [List.mem_singleton] at ha2
      exact hnc (ha2 ▸ ha)
    · unfold ColorsOk
      simp only []
      rw [List.pairwise_append]
      refine ⟨hinv.2.2, List.pairwise_singleton _ _, ?_⟩
      intro a ha b hb heq
      rw [List.mem_singleton] at hb
      subst hb
      exact palette_find_ne (mapValues s.regionColors) a.2 (List.mem_map_of_mem _ ha) heq

theorem Inv.after_refresh {s : State} (hinv : Inv s) :
    restyleAll (refreshRegionSelect s) = s := by
  rw [refreshRegionSelect_state s hinv.colored, restyleAll_state s hinv.colored]

theorem mapKeys_mapSet_of_get {β : Type} (m : List (String × β)) (k : String) (v w : β)
    (h : mapGet m k = some w) : mapKeys (mapSet m k v) = mapKeys m := by
  rw [mapKeys_mapSet, if_pos]
  rw [← mapGet_isSome_iff, h]; rfl

theorem Inv.addSelected (name : String) {s : State} (hinv : Inv s) :
    Inv (btnAddSelectedToRegion name s) := by
  unfold btnAddSelectedToRegion
  by_cases hn : name = ""
  · simp only [hn, beq_self_eq_true, if_true]; exact hinv
  · simp only [beq_iff_eq, hn, if_false]
    cases hg : mapGet s.regions name with
    | none =>
      simp only []
      split
      · rw [hinv.after_refresh]; exact hinv
      · exact hinv
    | some set =>
      simp only []
      have h2 : Inv { s with regions := mapSet s.regions name (s.selectedPlz.foldl setAdd set) } :=
        hinv.of_same (mapKeys_mapSet_of_get _ _ _ _ hg) rfl
      rw [h2.after_refresh]
      exact h2

theorem Inv.removeSelected (name : String) {s : State} (hinv : Inv s) :
    Inv (btnRemovePlzFromRegion name s) := by
  unfold btnRemovePlzFromRegion
  by_cases hn : name = ""
  · simp only [hn, beq_self_eq_true, if_true]; exact hinv
  · simp only [beq_iff_eq, hn, if_false]
    cases hg : mapGet s.regions name with
    | none =>
      simp only []
      split
      · rw [hinv.after_refresh]; exact hinv
      · exact hinv
    | some set =>
      simp only []
      have h2 : Inv { s with
          regions := mapSet s.regions name (s.selectedPlz.foldl setDelete set) } :=
        hinv.of_same (mapKeys_mapSet_of_get _ _ _ _ hg) rfl
      rw [h2.after_refresh]
      exact h2

theorem mapKeys_mapDelete {β : Type} (m : List (String × β)) (k : String) :
    mapKeys (mapDelete m k) = (mapKeys m).filter (fun x => x != k) := by
  simp only [mapKeys, mapDelete, List.filter_map]
  rfl

theorem Inv.delete (name : String) (confirmed : Bool) {s : State} (hinv : Inv s) :
    Inv (btnDeleteRegion name confirmed s) := by
  unfold btnDeleteRegion
  by_cases hn : name = ""
  · simp only [hn, beq_self_eq_true, if_true]; exact hinv
  · simp only [beq_iff_eq, hn, if_false]
    cases confirmed with
    | false => exact hinv
    | true =>
      have h2 : Inv { s with regions := mapDelete s.regions name,
                             regionColors := mapDelete s.regionColors name } := by
        refine ⟨?_, ?_, ?_⟩
        · simp only [mapKeys_mapDelete, hinv.1]
        · simp only [mapKeys_mapDelete]
          exact hinv.2.1.filter _
        · exact List.Pairwise.filter _ hinv.2.2
      simp only [Bool.not_true, Bool.false_eq_true, if_false]
      rw [h2.after_refresh]
      exact h2

theorem Inv.initial : Inv initialState :=
  ⟨rfl, List.nodup_nil, List.Pairwise.nil⟩

theorem Inv.reset (confirmed : Bool) {s : State} (hinv : Inv s) :
    Inv (btnResetAll confirmed s) := by
  unfold btnResetAll
  cases confirmed with
  | false => exact hinv
  | true => exact Inv.initial

theorem Inv.toggle {s : State} (hinv : Inv s) (rec : FeatureRec) :
    Inv (toggleSelected s rec) := by
  unfold toggleSelected
  simp only []
  split
  · have h2 : Inv { s with selectedPlz := setDelete s.selectedPlz rec.plz } := hinv
    rw [restyle_state _ _ h2.colored]
    exact h2
  · have h2 : Inv { s with selectedPlz := setAdd s.selectedPlz rec.plz } := hinv
    rw [restyle_state _ _ h2.colored]
    exact h2

theorem Inv.clickLoop (inside : Nat → Bool) {s : State} (hinv : Inv s) (l : List FeatureRec) :
    Inv (clickLoop inside s l) := by
  induction l with
  | nil => exact hinv
  | cons r rest ih =>
    unfold SelectZIP.clickLoop
    split
    · exact hinv.toggle r
    · exact ih

theorem Reachable.inv {s : State} (h : Reachable s) : Inv s := by
  induction h with
  | init => exact Inv.initial
  | create input _ ih => exact ih.create input
  | addSelected name _ ih => exact ih.addSelected name
  | removeSelected name _ ih => exact ih.removeSelected name
  | delete name confirmed _ ih => exact ih.delete name confirmed
  | reset confirmed _ ih => exact ih.reset confirmed
  | click inside _ ih => exact ih.clickLoop inside _
  | mapSide sel fi _ ih => exact ih

theorem fallback_not_in_palette : fallbackColor ∉ palette := by decide

/-- C10: in every state reached from the initial one by Create, AddSelectionToRegion,
RemoveSelectionFromRegion, Delete and Reset-All (and clicks and other selection changes), the
Region Store and the colour map have the same names, each once; two distinct names share a
colour only if it is the fallback `'#111827'`, which is not a palette colour; and a Create
that gives the new region the fallback happens only when at least seven regions exist. -/
theorem reachable_spec (s : State) (h : Reachable s) :
    mapKeys s.regions = mapKeys s.regionColors ∧ (mapKeys s.regions).Nodup ∧
    (∀ n1 n2 c, n1 ≠ n2 → mapGet s.regionColors n1 = some c →
      mapGet s.regionColors n2 = some c → c = fallbackColor) ∧
    fallbackColor ∉ palette ∧
    (∀ input, (btnCreateRegion input s).2 = none →
      mapGet (btnCreateRegion input s).1.regionColors (jsTrim input) = some fallbackColor →
      7 ≤ s.regions.length) := by
  have hinv := h.inv
  refine ⟨hinv.1, by rw [hinv.1]; exact hinv.2.1, ?_, fallback_not_in_palette, ?_⟩
  · intro n1 n2 c hne h1 h2
    have hsymm : Symmetric (fun a b : String × String => a.2 = b.2 → a.2 = fallbackColor) := by
      intro a b hab hba
      rw [hba]
      exact hab hba.symm
    have := List.Pairwise.forall hsymm hinv.2.2 (mem_of_mapGet _ _ _ h1) (mem_of_mapGet _ _ _ h2)
      (by intro heq; exact hne (congrArg Prod.fst heq))
    exact this rfl
  · intro input hok hfb
    have hsucc : ¬ (jsTrim input = "" ∨ jsTrim input ∈ mapKeys s.regions) :=
      fun hf => (btnCreateRegion_failure input s hf).2 hok
    simp only [not_or] at hsucc
    have hnc : jsTrim input ∉ mapKeys s.regionColors := by rw [← hinv.1]; exact hsucc.2
    rw [btnCreateRegion_success input s hinv hsucc.1 hsucc.2] at hfb
    simp only [] at hfb
    rw [mapGet_append_of_not_mem _ _ _ hnc, mapGet_cons, if_pos rfl] at hfb
    have hnext := Option.some.inj hfb
    have hall : ∀ x ∈ palette, x ∈ mapValues s.regionColors := by
      cases hf : palette.find? (fun c => !(mapValues s.regionColors).contains c) with
      | some c =>
        rw [hf] at hnext
        have hmem : c ∈ palette := List.mem_of_find?_eq_some hf
        simp only [Option.getD_some] at hnext
        rw [hnext] at hmem
        exact absurd hmem fallback_not_in_palette
      | none =>
        intro x hx
        simpa using (find?_first _ palette).2 hf x hx
    have hlen : palette.length ≤ (mapValues s.regionColors).length :=
      (List.subperm_of_subset (by decide) hall).length_le
    have h7 : palette.length = 7 := rfl
    have hk : s.regions.length = (mapValues s.regionColors).length := by
      have := congrArg List.length hinv.1
      simpa [mapKeys, mapValues] using this
    omega

/-! ## Concrete checks -/

/-- C10 at the state reached by creating the region `Berlin`. -/
theorem reachable_spec_witness :
    Reachable (btnCreateRegion "Berlin" initialState).1 ∧
    mapKeys (btnCreateRegion "Berlin" initialState).1.regions =
      mapKeys (btnCreateRegion "Berlin" initialState).1.regionColors :=
  ⟨Reachable.create "Berlin" Reachable.init,
    (reachable_spec _ (Reachable.create "Berlin" Reachable.init)).1⟩

/-- C1 at `exDisjoint`: saving and loading gives back the state. -/
theorem save_then_load_witness :
    (mapKeys exDisjoint.regions).Nodup ∧ (∀ e ∈ exDisjoint.regions, e.2.Nodup) ∧
    (mapKeys exDisjoint.regionColors).Nodup ∧
    (∀ e ∈ exDisjoint.regions, e.1 ∈ mapKeys exDisjoint.regionColors) ∧
    btnLoadLocal (btnSaveLocal exDisjoint).1 exDisjoint = some (exDisjoint, none) :=
  ⟨by decide, by decide, by decide, by decide,
    (save_then_load exDisjoint exDisjoint (by decide) (by decide) (by decide) (by decide)).2⟩

/-- C1 as stated fails at `exUncoloured`: the load gives the region a colour that the colour
map did not have before the save. -/
theorem save_then_load_counterexample :
    btnLoadLocal (btnSaveLocal exUncoloured).1 exUncoloured =
      some ({ exUncoloured with regionColors := [("Berlin", "#ef4444")] }, none) ∧
    ([("Berlin", "#ef4444")] : List (String × String)) ≠ exUncoloured.regionColors := by
  constructor
  · rfl
  · decide

/-- C2 at `exDisjoint`: the selection `10117` is added to `Berlin` and removed again. -/
theorem add_then_remove_selection_witness :
    "Berlin" ≠ "" ∧ mapGet exDisjoint.regions "Berlin" = some ["10115"] ∧
    mapGet (btnRemovePlzFromRegion "Berlin"
      (btnAddSelectedToRegion "Berlin" exDisjoint)).regions "Berlin" = some ["10115"] :=
  ⟨by decide, rfl,
    (add_then_remove_selection "Berlin" ["10115"] exDisjoint (by decide) rfl).2 (by decide)⟩

/-- C2 as stated fails at `exOverlap`: the selected code was in the region before the add,
and the remove takes it out. -/
theorem add_then_remove_selection_counterexample :
    mapGet exOverlap.regions "Berlin" = some ["10115"] ∧
    mapGet (btnRemovePlzFromRegion "Berlin"
      (btnAddSelectedToRegion "Berlin" exOverlap)).regions "Berlin" = some [] := by
  constructor <;> rfl

/-- C3 as stated fails on the stored text `{}`: it is valid JSON without `regions`, the alert
is raised, and the Region Store has been emptied. -/
theorem btnLoadLocal_counterexample :
    btnLoadLocal (some (.json (.obj []))) exOverlap =
      some ({ exOverlap with regions := [] }, some "Fehler beim Laden.") ∧
    exOverlap.regions ≠ [] := by
  constructor
  · rfl
  · decide

/-- C9 at a property object whose second value is a five-digit string. -/
theorem guessPlzKey_spec_witness :
    (mapKeys [("name", JVal.str "Berlin"), ("code", JVal.str "10115")]).Nodup ∧
    guessPlzKey [("name", JVal.str "Berlin"), ("code", JVal.str "10115")] = some "code" :=
  ⟨by decide,
    (guessPlzKey_spec [("name", JVal.str "Berlin"), ("code", JVal.str "10115")]
      (by decide)).2.1 (by decide) 1 "code" (JVal.str "10115") rfl
      ⟨"10115", rfl, by decide, by decide⟩
      (by
        intro j hj e he
        have hj0 : j = 0 := by omega
        subst hj0
        simp only [List.getElem?_cons_zero, Option.some.injEq] at he
        subst he
        rintro ⟨v, hv, hlen, _⟩
        simp only [JVal.str.injEq] at hv
        subst hv
        revert hlen
        decide)⟩

/-- C4 at `exOverlap`: `Berlin` is refused, `berlin` is a new region with the next colour. -/
theorem btnCreateRegion_spec_witness :
    (btnCreateRegion " Berlin" exOverlap).1 = exOverlap ∧
    (btnCreateRegion " Berlin" exOverlap).2 = some "Region existiert bereits" ∧
    (btnCreateRegion "berlin " exOverlap).1.regions = [("Berlin", ["10115"]), ("berlin", [])] ∧
    mapGet (btnCreateRegion "berlin " exOverlap).1.regionColors "berlin" = some "#10b981" :=
  ⟨((btnCreateRegion_spec " Berlin" exOverlap).1 (Or.inr (by decide))).1, rfl,
    ((btnCreateRegion_spec "berlin " exOverlap).2 (by decide) (by decide)).1, rfl⟩

/-- C5 at `exOverlap`: the selected code `10115` is in `Berlin` and gets the member style. -/
theorem styleFor_spec_witness :
    (styleFor exOverlap "10115").1 =
      { color := "#1f2937", weight := 1.5, fillColor := some "#ef4444", fillOpacity := 0.35 } :=
  ((styleFor_spec exOverlap "10115").1 0 "Berlin" ["10115"] rfl (by decide)
    (fun j hj => absurd hj (Nat.not_lt_zero j))).1

/-- C6 on a colour map that uses the first palette entry, where a new name gets the second,
and on `exFull`, where a new name gets `'#111827'`. -/
theorem getRegionColor_spec_witness :
    getRegionColor [("Berlin", "#ef4444")] "Hamburg" =
      (some "#10b981", [("Berlin", "#ef4444"), ("Hamburg", "#10b981")]) ∧
    getRegionColor [("Berlin", "#ef4444")] "Berlin" = (some "#ef4444", [("Berlin", "#ef4444")]) ∧
    getRegionColor exFull "h" = (some "#111827", exFull ++ [("h", "#111827")]) ∧
    (∃ c, getRegionColor exFull "h" = (some c, exFull ++ [("h", c)])) :=
  ⟨rfl, (getRegionColor_spec [("Berlin", "#ef4444")] "Berlin").1 "#ef4444" rfl, rfl,
    Exists.imp (fun _ hc => hc.1) ((getRegionColor_spec exFull "h").2.1 rfl)⟩

/-- C3 at `exNumberCode`: the stored value puts a number into a region and has no
`regionColors`; the alert is raised. -/
theorem btnLoadLocal_failure_witness :
    jsIterateProp exNumberCode "regionColors" = none ∧
    btnLoadLocalAlert (some (.json exNumberCode)) = some "Fehler beim Laden." :=
  ⟨rfl, (btnLoadLocal_failure exOverlap).2.2.2.2.1 exNumberCode (Or.inr rfl)⟩

/-- C8 at `exDisjoint`, clicking into the polygon of `10115`: the code is selected by the
click and the second click takes it out again. -/
theorem onMapClick_spec_witness :
    (onMapClick (fun f => f == 0) exDisjoint).selectedPlz = ["10117", "10115"] ∧
    (onMapClick (fun f => f == 0) (onMapClick (fun f => f == 0) exDisjoint)).selectedPlz =
      ["10117"] ∧
    ("10115" ∈ (onMapClick (fun f => f == 0) exDisjoint).selectedPlz ↔
      "10115" ∉ exDisjoint.selectedPlz) :=
  ⟨rfl, rfl,
    ((onMapClick_spec (fun f => f == 0) exDisjoint).2.1 0 ⟨"10115", 0⟩ rfl rfl
      (fun j hj => absurd hj (Nat.not_lt_zero j))).2⟩

end SelectZIP
